import Mathlib

/-!
Shallow embedding of `src/pisDiplomacy.cpp` (a Diplomacy rules-engine skeleton).

Modelling conventions:
* raw pointers (`Part*`, `Player*`, `Territory*`) become indices: a `Player*`
  is the player's index in `allPlayers`, a `Part*` is a pair
  (territory index, index of the part inside that territory), a `Territory*`
  is its index in `allTerritories`;
* the parsed JSON map description becomes the typed `MapDesc` below: each
  territory object of the JSON file is its list of adjacency-array entries
  (the keys other than "center"/"initPlayer"/"initPart") together with the
  three special fields, `initPlayer`/`initPart` being `Option String`
  (`none` = JSON null);
* C++ exceptions become `Except String`; `main`'s try/catch becomes
  `mainRun` returning either `aborted code msg` (the catch branch printing
  "Error: ..." to stderr and returning 1) or `running g` (the state with
  which the undefined `Game::play` would have been entered);
* C++ `int` fields (`centerCount`, `unitCount`) become `Int`.
-/

namespace PisDiplomacy

/-- One territory object of the map JSON: the adjacency-array entries
(part name ↦ neighbor names) plus the three special fields. -/
structure TerritoryDesc where
  entries : List (String × List String)
  center : Nat
  initPlayer : Option String
  initPart : Option String
deriving DecidableEq, Repr

/-- The parsed map JSON: territory name ↦ territory object, in key order. -/
abbrev MapDesc := List (String × TerritoryDesc)

/-- The parsed rules JSON. -/
structure RulesDesc where
  winCondition : Nat
  buildRule : String
  buildTime : Nat
  voteShown : Nat
  drawType : String
deriving DecidableEq, Repr

/-- `class Part` (src lines 135-142). `unit : Option Nat` is the
`Player*` pointer as an index into `allPlayers` (`none` = nullptr);
`belonged` is the index of the containing territory. -/
structure Part where
  name : String
  neighbors : List String
  belonged : Nat
  LC : Nat
  unit : Option Nat
deriving DecidableEq, Repr

/-- `class Territory` (src lines 144-150); `owner` is a player index. -/
structure Territory where
  name : String
  parts : List Part
  center : Nat
  owner : Option Nat
deriving DecidableEq, Repr

/-- `class Player` (src lines 152-161); `allowBuild` holds territory
indices, `units` holds (territory index, part index) pairs. -/
structure Player where
  name : String
  allowBuild : List Nat
  centerCount : Int
  unitCount : Int
  units : List (Nat × Nat)
  vote : Bool
  ready : Bool
deriving DecidableEq, Repr

/-- The state held by `class Game` (src lines 163-187); `mapRaw` is the
stored dump of the map JSON that `Game::initialize` re-parses. -/
structure GameState where
  allTerritories : List Territory
  allPlayers : List Player
  winCondition : Nat
  buildRule : Nat
  buildTime : Nat
  voteShown : Bool
  drawType : Nat
  phaseCount : Nat
  logFilePath : String
  mapRaw : MapDesc
deriving DecidableEq, Repr

/-- The keys of a territory object that are not part entries
(src line 218). -/
def isSpecialKey (k : String) : Bool :=
  k = "center" || k = "initPlayer" || k = "initPart"

/-- Building one `Part` (src lines 219-224).  `partName.substr(size()-1)`
throws `std::out_of_range` on an empty key, hence the error case; the
comparison with `'C'` sets `LC`. -/
def mkPart (ti : Nat) (nm : String) : Except String Part :=
  match nm.toList.getLast? with
  | none => .error "basic_string::substr: __pos > this->size()"
  | some c => .ok { name := nm, neighbors := [], belonged := ti,
                    LC := if c = 'C' then 1 else 0, unit := none }

/-- The inner loop of the constructor (src lines 217-226): every
non-special key becomes a `Part`; the neighbor array bound by the loop is
never stored. -/
def buildParts (ti : Nat) : List (String × List String) → Except String (List Part)
  | [] => .ok []
  | (k, _) :: rest =>
    if isSpecialKey k then buildParts ti rest
    else do
      let p ← mkPart ti k
      let ps ← buildParts ti rest
      .ok (p :: ps)

/-- The outer territory loop of the constructor (src lines 211-229). -/
def buildTerritories : Nat → MapDesc → Except String (List Territory)
  | _, [] => .ok []
  | i, (nm, td) :: rest => do
    let parts ← buildParts i td.entries
    let ts ← buildTerritories (i + 1) rest
    .ok ({ name := nm, parts := parts, center := td.center, owner := none } :: ts)

/-- The pseudo-player pushed first (src lines 232-238). -/
def publicPlayer : Player :=
  { name := "public", allowBuild := [], centerCount := 0, unitCount := 0,
    units := [], vote := true, ready := true }

/-- The player-roster loop of the constructor (src lines 239-253):
one `Player` per first occurrence of each non-null `initPlayer` name;
`seen` plays the role of `playerMap`'s key set. -/
def rosterAux : MapDesc → List String → List Player
  | [], _ => []
  | (_, td) :: rest, seen =>
    match td.initPlayer with
    | none => rosterAux rest seen
    | some pn =>
      if pn ∈ seen then rosterAux rest seen
      else { name := pn, allowBuild := [], centerCount := 0, unitCount := 0,
             units := [], vote := false, ready := false } :: rosterAux rest (pn :: seen)

/-- `Game::Game` after the two input files have been read and parsed
(src lines 200-254). -/
def gameConstruct (m : MapDesc) (r : RulesDesc) : Except String GameState := do
  let ts ← buildTerritories 0 m
  .ok { allTerritories := ts
        allPlayers := publicPlayer :: rosterAux m []
        winCondition := r.winCondition
        buildRule := if r.buildRule = "allCenters" then 1 else 0
        buildTime := r.buildTime
        voteShown := r.voteShown == 1
        drawType := if r.drawType = "DSS" then 0 else 1
        phaseCount := 1
        logFilePath := "log.json"
        mapRaw := m }

/-- nlohmann's conversion of a JSON value to `std::string`
(src line 263): throws `type_error.302` on null. -/
def getString : Option String → Except String String
  | none => .error "[json.exception.type_error.302] type must be string, but is null"
  | some s => .ok s

/-- Replace the `n`-th element of a list by `f` of it (in-place pointer
mutation in the C++). -/
def updateNth {α : Type} : List α → Nat → (α → α) → List α
  | [], _, _ => []
  | x :: xs, 0, f => f x :: xs
  | x :: xs, n + 1, f => x :: updateNth xs n f

/-- Dereference a `Part*` pair. -/
def partAt (ts : List Territory) (u : Nat × Nat) : Option Part :=
  match ts[u.1]? with
  | none => none
  | some t => t.parts[u.2]?

/-- `std::find_if` returning the index of the first element satisfying
`p` (`none` when the iterator equals `end()`). -/
def findIdxL {α : Type} (p : α → Bool) : List α → Option Nat
  | [] => none
  | x :: xs => if p x then some 0 else (findIdxL p xs).map (· + 1)

/-- `part->unit = player` (src line 276) on part `pj` of a territory. -/
def setPartUnit (pj pi : Nat) (tt : Territory) : Territory :=
  { tt with parts := updateNth tt.parts pj (fun pr => { pr with unit := some pi }) }

/-- `player->units.push_back(part); player->unitCount++`
(src lines 277-278). -/
def pushUnit (ti pj : Nat) (p : Player) : Player :=
  { p with units := p.units ++ [(ti, pj)], unitCount := p.unitCount + 1 }

/-- `territory->owner = player` (src line 282). -/
def setOwner (pi : Nat) (tt : Territory) : Territory :=
  { tt with owner := some pi }

/-- `player->centerCount++; player->allowBuild.push_back(territory)`
(src lines 283-284). -/
def pushCenter (ti : Nat) (p : Player) : Player :=
  { p with centerCount := p.centerCount + 1, allowBuild := p.allowBuild ++ [ti] }

/-- The body of the territory loop of `Game::initialize`
(src lines 259-288) for the territory at index `ti`. -/
def initStep (m : MapDesc) (ts : List Territory) (ps : List Player) (ti : Nat) :
    Except String (List Territory × List Player) :=
  match ts[ti]? with
  | none => .ok (ts, ps)
  | some t =>
    match m.find? (fun e => e.1 = t.name) with
    | none => .ok (ts, ps)
    | some e =>
      match e.2.initPlayer with
      | none => .ok (ts, ps)
      | some pn => do
        let ipn ← getString e.2.initPart
        match findIdxL (fun p => p.name = pn) ps with
        | none => .ok (ts, ps)
        | some pi =>
          let tsps :=
            match findIdxL (fun pr => pr.name = ipn) t.parts with
            | none => (ts, ps)
            | some pj =>
              (updateNth ts ti (setPartUnit pj pi),
               updateNth ps pi (pushUnit ti pj))
          if t.center ≠ 0 then
            .ok (updateNth tsps.1 ti (setOwner pi),
                 updateNth tsps.2 pi (pushCenter ti))
          else .ok tsps

/-- The territory loop of `Game::initialize`, iterating over the
territory indices in order. -/
def initFold (m : MapDesc) : List Nat → List Territory → List Player →
    Except String (List Territory × List Player)
  | [], ts, ps => .ok (ts, ps)
  | ti :: rest, ts, ps => do
    let r ← initStep m ts ps ti
    initFold m rest r.1 r.2

/-- `Game::initialize` (src lines 256-289). -/
def initializeGame (g : GameState) : Except String GameState := do
  let r ← initFold g.mapRaw (List.range g.allTerritories.length)
            g.allTerritories g.allPlayers
  .ok { g with allTerritories := r.1, allPlayers := r.2 }

/-- An input file as seen by the constructor: absent, present but not
valid JSON, or parsed content. -/
inductive FileInput (α : Type) where
  | missing : FileInput α
  | malformed : FileInput α
  | content : α → FileInput α
deriving DecidableEq

/-- `Game::Game`'s file handling (src lines 190-198): the two open
checks come first, then `json::parse` of the map, then of the rules,
each failure raising an exception. -/
def gameFromFiles (mf : FileInput MapDesc) (rf : FileInput RulesDesc) :
    Except String GameState :=
  match mf, rf with
  | .missing, _ => .error "Failed to open input files"
  | _, .missing => .error "Failed to open input files"
  | .malformed, _ => .error "[json.exception.parse_error.101] syntax error"
  | _, .malformed => .error "[json.exception.parse_error.101] syntax error"
  | .content m, .content r => gameConstruct m r

/-- What `main` (src lines 291-301) does: either the catch branch runs
(stderr line `Error: ...`, exit code 1), or control reaches
`diplomacy.play()` — which has no definition in the source — with the
constructed and initialized state. -/
inductive MainOutcome where
  | aborted (exitCode : Nat) (stderrLine : String)
  | running (g : GameState)
deriving DecidableEq

/-- `main` up to the call of the undefined `Game::play`. -/
def mainRun (mf : FileInput MapDesc) (rf : FileInput RulesDesc) : MainOutcome :=
  match (do let g ← gameFromFiles mf rf; initializeGame g : Except String GameState) with
  | .error e => .aborted 1 ("Error: " ++ e)
  | .ok g => .running g

/-! ### Move-phase contest resolution, modelled from the spec

`Game::movePhase` is declared (src line 178) but defined nowhere in the
source, so the move-phase adjudication is modelled from the spec. -/

/-- Modelled from the spec: the outcome of the contest for one
destination `Part` — who occupies it afterwards, and whether it was a
standoff (spec §4.3 step 4). -/
structure ContestOutcome where
  occupant : Option Nat
  standoff : Bool
deriving DecidableEq, Repr

/-- Modelled from the spec: the maximal support strength among the
entrants (unit id, strength) targeting one `Part`. -/
def maxStrength (es : List (Nat × Nat)) : Nat :=
  es.foldr (fun e a => max e.2 a) 0

/-- Modelled from the spec: the entrants tied for the maximum strength. -/
def topEntrants (es : List (Nat × Nat)) : List (Nat × Nat) :=
  es.filter (fun e => e.2 = maxStrength es)

/-- Modelled from the spec (`Game::movePhase` is never defined in the
source): §4.3 step 4, contest resolution for one destination `Part`.
`es` are the Move orders targeting the part (unit id, strength), `inc`
the incumbent and its hold strength (`none` if the part is empty),
`vacated` whether the incumbent itself moves away.  The unique
strictly-greatest entrant wins, needing strictly more than the
incumbent's hold strength to dislodge it; two or more entrants tied for
the maximum make the part a standoff with occupancy unchanged. -/
def resolveContest (es : List (Nat × Nat)) (inc : Option (Nat × Nat))
    (vacated : Bool) : ContestOutcome :=
  let prior : Option Nat := if vacated then none else inc.map Prod.fst
  match topEntrants es with
  | [] => { occupant := prior, standoff := false }
  | [e] =>
    match inc, vacated with
    | some i, false =>
      if i.2 < e.2 then { occupant := some e.1, standoff := false }
      else { occupant := some i.1, standoff := false }
    | _, _ => { occupant := some e.1, standoff := false }
  | _ :: _ :: _ => { occupant := prior, standoff := true }

/-! ### Concrete inputs used by witnesses and counterexamples -/

/-- The "LON" territory of the example map in the source's header
comment (src lines 16-22). -/
def tdLON : TerritoryDesc :=
  { entries := [("LON_L", ["YOR", "WAL"]), ("LON_C", ["YOR", "WAL", "ENG", "NTH"])]
    center := 1
    initPlayer := some "ENG"
    initPart := some "LON_C" }

/-- A one-territory example map. -/
def mapEx : MapDesc := [("LON", tdLON)]

/-- The example rules file from the source's header comment
(src lines 58-64). -/
def rulesEx : RulesDesc :=
  { winCondition := 18, buildRule := "initCenters", buildTime := 4,
    voteShown := 1, drawType := "DSS" }

/-- A rules description whose `drawType` is neither "DSS" nor "SoS". -/
def rulesUnknownDraw : RulesDesc :=
  { winCondition := 18, buildRule := "initCenters", buildTime := 4,
    voteShown := 1, drawType := "XYZ" }

/-- A territory whose `initPlayer` is non-null while `initPart` is JSON
null. -/
def tdNullInitPart : TerritoryDesc :=
  { entries := [("UKR_L", ["MOS", "WAR"])]
    center := 0
    initPlayer := some "RUS"
    initPart := none }

/-- A map containing a null-`initPart` territory. -/
def mapNullInitPart : MapDesc := [("UKR", tdNullInitPart)]

/-- A territory with a part identifier "ARC" that ends in the letter C
without carrying any of the documented suffixes. -/
def tdARC : TerritoryDesc :=
  { entries := [("ARC", ["XYZ"])]
    center := 0
    initPlayer := none
    initPart := none }

/-- A map containing the part "ARC". -/
def mapARC : MapDesc := [("ARCT", tdARC)]

/-- A two-territory map whose second territory is a supply center owned
at start and whose first is a non-center with an initial unit: "UKR"
(center 0, RUS unit on UKR_L) and "MOS" (center 1, RUS unit on MOS_L). -/
def mapTwo : MapDesc :=
  [("UKR", { entries := [("UKR_L", ["MOS", "WAR"])]
             center := 0
             initPlayer := some "RUS"
             initPart := some "UKR_L" }),
   ("MOS", { entries := [("MOS_L", ["UKR", "STP"])]
             center := 1
             initPlayer := some "RUS"
             initPart := some "MOS_L" })]

/-- The number of territories whose `owner` pointer names player `pi`. -/
def ownedCount (ts : List Territory) (pi : Nat) : Nat :=
  (ts.filter (fun t => t.owner = some pi)).length

/-- The immutable skeleton of a territory: everything `Game::initialize`
never writes to (name, center flag, part names). -/
def terrSkel (t : Territory) : String × Nat × List String :=
  (t.name, t.center, t.parts.map Part.name)

/-- The invariant maintained by the territory loop of
`Game::initialize`; `is` is the list of territory indices still to be
processed. -/
structure InitInv (ts : List Territory) (ps : List Player) (is : List Nat) : Prop where
  unitCount_eq : ∀ (pi : Nat) (p : Player), ps[pi]? = some p →
    p.unitCount = (p.units.length : Int)
  units_point : ∀ (pi : Nat) (p : Player), ps[pi]? = some p → ∀ u ∈ p.units,
    ∃ pr, partAt ts u = some pr ∧ pr.unit = some pi
  centerCount_eq : ∀ (pi : Nat) (p : Player), ps[pi]? = some p →
    p.centerCount = (ownedCount ts pi : Int)
  units_done : ∀ (pi : Nat) (p : Player), ps[pi]? = some p → ∀ u ∈ p.units, u.1 ∉ is
  pending_unowned : ∀ ti ∈ is, ∀ (t : Territory), ts[ti]? = some t → t.owner = none
  owner_center : ∀ t ∈ ts, t.owner ≠ none → t.center ≠ 0
  allowBuild_center : ∀ (pi : Nat) (p : Player), ps[pi]? = some p → ∀ ti ∈ p.allowBuild,
    ∃ t, ts[ti]? = some t ∧ t.center ≠ 0

/-! ## Generic helper lemmas -/

theorem except_bind_ok {ε α β : Type} {x : Except ε α} {f : α → Except ε β} {b : β} :
    (x >>= f) = .ok b ↔ ∃ a, x = .ok a ∧ f a = .ok b := by
  cases x <;> simp [Bind.bind, Except.bind]

theorem updateNth_getElem? {α : Type} (f : α → α) :
    ∀ (l : List α) (n k : Nat), (updateNth l n f)[k]? = if k = n then (l[n]?).map f else l[k]? := by
  intro l
  induction l with
  | nil => intro n k; simp [updateNth]
  | cons x xs ih =>
    intro n k
    cases n with
    | zero =>
      cases k with
      | zero => simp [updateNth]
      | succ k => simp [updateNth]
    | succ n =>
      cases k with
      | zero => simp [updateNth]
      | succ k => simpa [updateNth, Nat.succ_eq_add_one] using ih n k

theorem updateNth_length {α : Type} (f : α → α) :
    ∀ (l : List α) (n : Nat), (updateNth l n f).length = l.length := by
  intro l
  induction l with
  | nil => intro n; rfl
  | cons x xs ih =>
    intro n
    cases n with
    | zero => rfl
    | succ n => simp [updateNth, ih n]

theorem updateNth_map_invariant {α β : Type} {g : α → β} {f : α → α}
    (h : ∀ a, g (f a) = g a) :
    ∀ (l : List α) (n : Nat), (updateNth l n f).map g = l.map g := by
  intro l
  induction l with
  | nil => intro n; rfl
  | cons x xs ih =>
    intro n
    cases n with
    | zero => simp [updateNth, h x]
    | succ n => simp [updateNth, ih n]

theorem updateNth_updateNth_same {α : Type} (f g : α → α) :
    ∀ (l : List α) (n : Nat), updateNth (updateNth l n f) n g = updateNth l n (g ∘ f) := by
  intro l
  induction l with
  | nil => intro n; rfl
  | cons x xs ih =>
    intro n
    cases n with
    | zero => rfl
    | succ n => simp [updateNth, ih n]

theorem findIdxL_some {α : Type} {p : α → Bool} :
    ∀ {l : List α} {i : Nat}, findIdxL p l = some i → ∃ a, l[i]? = some a ∧ p a = true := by
  intro l
  induction l with
  | nil => intro i h; simp [findIdxL] at h
  | cons x xs ih =>
    intro i h
    by_cases hx : p x
    · simp [findIdxL, hx] at h
      exact ⟨x, by simp [← h], hx⟩
    · simp [findIdxL, hx] at h
      obtain ⟨j, hj, rfl⟩ := h
      obtain ⟨a, ha, hpa⟩ := ih hj
      exact ⟨a, by simpa using ha, hpa⟩

theorem findIdxL_of_exists {α : Type} {p : α → Bool} :
    ∀ {l : List α}, (∃ a ∈ l, p a = true) → ∃ i, findIdxL p l = some i := by
  intro l
  induction l with
  | nil => rintro ⟨a, ha, -⟩; simp at ha
  | cons x xs ih =>
    rintro ⟨a, ha, hpa⟩
    by_cases hx : p x
    · exact ⟨0, by simp [findIdxL, hx]⟩
    · rcases List.mem_cons.mp ha with rfl | ha'
      · exact absurd hpa hx
      · obtain ⟨i, hi⟩ := ih ⟨a, ha', hpa⟩
        exact ⟨i + 1, by simp [findIdxL, hx, hi]⟩

theorem two_le_length_filter {α : Type} (p : α → Bool) :
    ∀ (l : List α) (i j : Nat) (a b : α), i ≠ j → l[i]? = some a → l[j]? = some b →
      p a = true → p b = true → 2 ≤ (l.filter p).length := by
  intro l
  induction l with
  | nil => intro i j a b _ hi; simp at hi
  | cons x xs ih =>
    intro i j a b hij hi hj hpa hpb
    cases i with
    | zero =>
      cases j with
      | zero => exact absurd rfl hij
      | succ j =>
        simp only [List.getElem?_cons_zero, Option.some_inj] at hi
        subst hi
        simp only [List.getElem?_cons_succ] at hj
        have hb : b ∈ xs := List.getElem?_mem hj
        have : b ∈ xs.filter p := List.mem_filter.mpr ⟨hb, hpb⟩
        have h1 : 1 ≤ (xs.filter p).length := List.length_pos.mpr (List.ne_nil_of_mem this)
        simp [List.filter_cons, hpa]
        omega
    | succ i =>
      cases j with
      | zero =>
        simp only [List.getElem?_cons_zero, Option.some_inj] at hj
        subst hj
        simp only [List.getElem?_cons_succ] at hi
        have ha : a ∈ xs := List.getElem?_mem hi
        have : a ∈ xs.filter p := List.mem_filter.mpr ⟨ha, hpa⟩
        have h1 : 1 ≤ (xs.filter p).length := List.length_pos.mpr (List.ne_nil_of_mem this)
        simp [List.filter_cons, hpb]
        omega
      | succ j =>
        simp only [List.getElem?_cons_succ] at hi hj
        have := ih i j a b (by omega) hi hj hpa hpb
        cases hpx : p x <;> simp [List.filter_cons, hpx] <;> omega

theorem getLast?_of_suffix {l suf : List Char} {c : Char} (hc : suf.getLast? = some c)
    (h : suf <:+ l) : l.getLast? = some c := by
  obtain ⟨t, rfl⟩ := h
  rw [List.getLast?_append, hc]
  rfl

/-! ## Shape of the constructed state -/

theorem gameConstruct_ok {m : MapDesc} {r : RulesDesc} {g : GameState}
    (h : gameConstruct m r = .ok g) :
    ∃ ts, buildTerritories 0 m = .ok ts ∧
      g = { allTerritories := ts
            allPlayers := publicPlayer :: rosterAux m []
            winCondition := r.winCondition
            buildRule := if r.buildRule = "allCenters" then 1 else 0
            buildTime := r.buildTime
            voteShown := r.voteShown == 1
            drawType := if r.drawType = "DSS" then 0 else 1
            phaseCount := 1
            logFilePath := "log.json"
            mapRaw := m } := by
  unfold gameConstruct at h
  obtain ⟨ts, hts, hok⟩ := except_bind_ok.mp h
  refine ⟨ts, hts, ?_⟩
  simpa using hok.symm

theorem buildParts_mem {ti : Nat} :
    ∀ {entries : List (String × List String)} {parts : List Part},
      buildParts ti entries = .ok parts → ∀ p ∈ parts,
        p.neighbors = [] ∧ p.unit = none ∧ p.belonged = ti ∧
        ∃ c, p.name.toList.getLast? = some c ∧ p.LC = (if c = 'C' then 1 else 0) := by
  intro entries
  induction entries with
  | nil =>
    intro parts h p hp
    simp only [buildParts, Except.ok.injEq] at h
    subst h
    simp at hp
  | cons e rest ih =>
    intro parts h p hp
    obtain ⟨k, v⟩ := e
    by_cases hk : isSpecialKey k
    · exact ih (by simpa [buildParts, hk] using h) p hp
    · simp only [buildParts, hk, Bool.false_eq_true, if_false] at h
      obtain ⟨p0, hp0, h2⟩ := except_bind_ok.mp h
      obtain ⟨ps0, hps0, h3⟩ := except_bind_ok.mp h2
      simp only [Except.ok.injEq] at h3
      subst h3
      rcases List.mem_cons.mp hp with rfl | hmem
      · unfold mkPart at hp0
        cases hl : k.toList.getLast? with
        | none => rw [hl] at hp0; exact absurd hp0 (by simp)
        | some c =>
          rw [hl] at hp0
          simp only [Except.ok.injEq] at hp0
          subst hp0
          exact ⟨rfl, rfl, rfl, c, hl, rfl⟩
      · exact ih hps0 p hmem

theorem buildTerritories_mem :
    ∀ {i : Nat} {m : MapDesc} {ts : List Territory}, buildTerritories i m = .ok ts →
      ∀ t ∈ ts, t.owner = none ∧ ∀ p ∈ t.parts,
        p.neighbors = [] ∧ p.unit = none ∧
        ∃ c, p.name.toList.getLast? = some c ∧ p.LC = (if c = 'C' then 1 else 0) := by
  intro i m
  induction m generalizing i with
  | nil =>
    intro ts h t ht
    simp only [buildTerritories, Except.ok.injEq] at h
    subst h
    simp at ht
  | cons e rest ih =>
    intro ts h t ht
    obtain ⟨nm, td⟩ := e
    simp only [buildTerritories] at h
    obtain ⟨parts, hparts, h2⟩ := except_bind_ok.mp h
    obtain ⟨ts0, hts0, h3⟩ := except_bind_ok.mp h2
    simp only [Except.ok.injEq] at h3
    subst h3
    rcases List.mem_cons.mp ht with rfl | hmem
    · refine ⟨rfl, ?_⟩
      intro p hp
      obtain ⟨h1, h2', -, hc⟩ := buildParts_mem hparts p hp
      exact ⟨h1, h2', hc⟩
    · exact ih hts0 t hmem

/-! ## Claim theorems (first batch) -/

/-- C1: counterexample evaluation for the code bug.  The constructor
(src lines 217-226) binds each part's neighbor array but never stores
it, so after loading the example map from the source's own header
comment the Part "LON_L" — whose map entry lists the neighbors
["YOR", "WAL"] — has an empty neighbor adjacency list, contradicting
the claim that neighbor lookup returns precisely the neighbors listed
in the map file. -/
theorem neighbors_never_loaded :
    (gameConstruct mapEx rulesEx).map
        (fun g => g.allTerritories.map fun t => t.parts.map fun p => (p.name, p.neighbors))
      = .ok [[("LON_L", []), ("LON_C", [])]] ∧
    ("LON_L", ["YOR", "WAL"]) ∈ tdLON.entries ∧ (["YOR", "WAL"] : List String) ≠ [] := by
  refine ⟨rfl, by decide, by decide⟩

/-- C3: if the map file or the rules file is missing or unparseable,
`main` (src lines 291-301) catches the exception thrown by the
constructor (src lines 193-198), prints a diagnostic on stderr and
returns exit code 1. -/
theorem fatal_startup_errors (mf : FileInput MapDesc) (rf : FileInput RulesDesc)
    (h : mf = .missing ∨ mf = .malformed ∨ rf = .missing ∨ rf = .malformed) :
    ∃ msg, mainRun mf rf = .aborted 1 ("Error: " ++ msg) := by
  cases mf <;> cases rf <;>
    first
      | exact ⟨_, rfl⟩
      | (rcases h with h | h | h | h <;> simp_all)

/-- C3 witness: both files missing aborts with exit code 1 and a
diagnostic. -/
theorem fatal_startup_errors_witness :
    ∃ msg, mainRun (FileInput.missing : FileInput MapDesc)
        (FileInput.missing : FileInput RulesDesc) = .aborted 1 ("Error: " ++ msg) :=
  fatal_startup_errors _ _ (Or.inl rfl)

/-- C4: counterexample.  A rules description whose `drawType` is "XYZ"
(neither "DSS" nor "SoS") does not fail at load time: construction
succeeds, because src line 207 maps every value other than "DSS" to the
SoS encoding 1. -/
theorem unknown_drawType_loads :
    (gameConstruct mapEx rulesUnknownDraw).map (fun g => g.drawType) = .ok 1 ∧
    rulesUnknownDraw.drawType ≠ "DSS" ∧ rulesUnknownDraw.drawType ≠ "SoS" :=
  ⟨rfl, by decide, by decide⟩

/-- C4 amended: loading never fails on the draw type; any `drawType`
other than "DSS" (unknown ones included) is silently treated as SoS
(`drawType = 1`). -/
theorem drawType_defaults_to_SoS (m : MapDesc) (r : RulesDesc) (g : GameState)
    (h : gameConstruct m r = .ok g) (hne : r.drawType ≠ "DSS") : g.drawType = 1 := by
  obtain ⟨ts, -, rfl⟩ := gameConstruct_ok h
  simp [hne]

/-- C4 amended witness: the "XYZ" rules load with `drawType = 1`. -/
theorem drawType_defaults_to_SoS_witness :
    ∃ g, gameConstruct mapEx rulesUnknownDraw = .ok g ∧ g.drawType = 1 :=
  ⟨_, rfl, drawType_defaults_to_SoS mapEx rulesUnknownDraw _ rfl (by decide)⟩

/-- C8: counterexample.  The part identifier "ARC" carries none of the
suffixes `_C`, `_NC`, `_SC`, yet the loaded Part is classified as coast
(`LC = 1`), because src line 223 only compares the final character with
'C'.  So classification does not hold "exactly when" the identifier
carries a coast suffix. -/
theorem coast_suffix_violated :
    (gameConstruct mapARC rulesEx).map
        (fun g => g.allTerritories.map fun t => t.parts.map fun p => (p.name, p.LC))
      = .ok [[("ARC", 1)]] ∧
    ¬(['_', 'C'] <:+ "ARC".toList) ∧ ¬(['_', 'N', 'C'] <:+ "ARC".toList) ∧
    ¬(['_', 'S', 'C'] <:+ "ARC".toList) :=
  ⟨rfl, by decide, by decide, by decide⟩

/-- C8 amended: a loaded Part is classified as coast exactly when its
identifier's final character is 'C'; in particular identifiers carrying
one of the suffixes `_C`, `_NC`, `_SC` are classified coast and
identifiers carrying `_L` are classified land. -/
theorem coast_classification (m : MapDesc) (r : RulesDesc) (g : GameState)
    (h : gameConstruct m r = .ok g) :
    ∀ t ∈ g.allTerritories, ∀ p ∈ t.parts,
      (p.LC = 1 ↔ p.name.toList.getLast? = some 'C') ∧
      ((['_', 'C'] <:+ p.name.toList ∨ ['_', 'N', 'C'] <:+ p.name.toList ∨
          ['_', 'S', 'C'] <:+ p.name.toList) → p.LC = 1) ∧
      (['_', 'L'] <:+ p.name.toList → p.LC = 0) := by
  obtain ⟨ts, hts, rfl⟩ := gameConstruct_ok h
  intro t ht p hp
  obtain ⟨-, hparts⟩ := buildTerritories_mem hts t ht
  obtain ⟨-, -, c, hc, hLC⟩ := hparts p hp
  have hiff : p.LC = 1 ↔ p.name.toList.getLast? = some 'C' := by
    rw [hc, hLC]
    by_cases hcC : c = 'C'
    · subst hcC
      simp
    · simp [hcC]
  refine ⟨hiff, ?_, ?_⟩
  · intro hsuf
    refine hiff.mpr ?_
    rcases hsuf with h1 | h1 | h1
    · exact getLast?_of_suffix (by decide) h1
    · exact getLast?_of_suffix (by decide) h1
    · exact getLast?_of_suffix (by decide) h1
  · intro hsuf
    have hL : p.name.toList.getLast? = some 'L' := getLast?_of_suffix (by decide) hsuf
    rw [hc] at hL
    have hcL : c = 'L' := by simpa using hL
    rw [hLC, if_neg (by simp [hcL])]

/-- C8 amended witness: the example map's parts "LON_L" and "LON_C" are
classified per the suffix convention. -/
theorem coast_classification_witness :
    ∃ g, gameConstruct mapEx rulesEx = .ok g ∧
      ∀ t ∈ g.allTerritories, ∀ p ∈ t.parts,
        (p.LC = 1 ↔ p.name.toList.getLast? = some 'C') ∧
        ((['_', 'C'] <:+ p.name.toList ∨ ['_', 'N', 'C'] <:+ p.name.toList ∨
            ['_', 'S', 'C'] <:+ p.name.toList) → p.LC = 1) ∧
        (['_', 'L'] <:+ p.name.toList → p.LC = 0) :=
  ⟨_, rfl, coast_classification mapEx rulesEx _ rfl⟩

/-- C2: modelled from the spec (the source declares `Game::movePhase`
but never defines it).  If two or more Move orders of equal maximal
strength target the same Part, the contest resolution of spec §4.3
step 4 makes the Part a standoff: no entrant succeeds and the occupancy
is unchanged (the incumbent stays unless it itself vacated; an empty
Part stays empty). -/
theorem tied_max_standoff (es : List (Nat × Nat)) (inc : Option (Nat × Nat))
    (vacated : Bool)
    (h : ∃ (i j : Nat) (e1 e2 : Nat × Nat), i ≠ j ∧ es[i]? = some e1 ∧
          es[j]? = some e2 ∧ e1.2 = maxStrength es ∧ e2.2 = maxStrength es) :
    resolveContest es inc vacated =
      { occupant := if vacated then none else inc.map Prod.fst, standoff := true } := by
  obtain ⟨i, j, e1, e2, hij, h1, h2, m1, m2⟩ := h
  have h2le : 2 ≤ (topEntrants es).length := by
    unfold topEntrants
    exact two_le_length_filter _ es i j e1 e2 hij h1 h2 (by simp [m1]) (by simp [m2])
  unfold resolveContest
  cases htop : topEntrants es with
  | nil => rw [htop] at h2le; simp at h2le
  | cons x xs =>
    cases xs with
    | nil => rw [htop] at h2le; simp at h2le
    | cons y ys => rfl

/-- C2 witness: two units of strength 2 each (equal support) attacking
one empty Part leave it empty, as a standoff. -/
theorem tied_max_standoff_witness :
    resolveContest [(1, 2), (2, 2)] none false =
      { occupant := none, standoff := true } :=
  tied_max_standoff [(1, 2), (2, 2)] none false
    ⟨0, 1, (1, 2), (2, 2), by decide, rfl, rfl, by decide, by decide⟩

/-- C5: counterexample.  A well-formed map in which territory "UKR" has
`initPlayer` "RUS" but `initPart` null does not complete
initialization: `Game::initialize` (src line 263) converts the null
`initPart` to `std::string`, which throws nlohmann's type_error.302,
and `main` aborts with exit code 1 — the claim that construction and
initialization complete without a fatal error is false. -/
theorem null_initPart_aborts :
    tdNullInitPart.initPlayer = some "RUS" ∧ tdNullInitPart.initPart = none ∧
    mainRun (.content mapNullInitPart) (.content rulesEx) =
      .aborted 1 "Error: [json.exception.type_error.302] type must be string, but is null" :=
  ⟨rfl, rfl, rfl⟩

/-! ## Player roster lemmas -/

theorem rosterAux_cons_none {nm : String} {td : TerritoryDesc} {rest : MapDesc}
    {seen : List String} (h : td.initPlayer = none) :
    rosterAux ((nm, td) :: rest) seen = rosterAux rest seen := by
  rw [rosterAux, h]

theorem rosterAux_cons_seen {nm : String} {td : TerritoryDesc} {rest : MapDesc}
    {seen : List String} {pn : String} (h : td.initPlayer = some pn) (hs : pn ∈ seen) :
    rosterAux ((nm, td) :: rest) seen = rosterAux rest seen := by
  rw [rosterAux, h]
  exact if_pos hs

theorem rosterAux_cons_new {nm : String} {td : TerritoryDesc} {rest : MapDesc}
    {seen : List String} {pn : String} (h : td.initPlayer = some pn) (hs : pn ∉ seen) :
    rosterAux ((nm, td) :: rest) seen =
      { name := pn, allowBuild := [], centerCount := 0, unitCount := 0,
        units := [], vote := false, ready := false } :: rosterAux rest (pn :: seen) := by
  rw [rosterAux, h]
  exact if_neg hs

theorem rosterAux_mem :
    ∀ (m : MapDesc) (seen : List String) (p : Player), p ∈ rosterAux m seen →
      p.allowBuild = [] ∧ p.centerCount = 0 ∧ p.unitCount = 0 ∧ p.units = [] ∧
      p.vote = false ∧ p.ready = false := by
  intro m
  induction m with
  | nil => intro seen p hp; simp [rosterAux] at hp
  | cons e rest ih =>
    intro seen p hp
    obtain ⟨nm, td⟩ := e
    cases htd : td.initPlayer with
    | none =>
      rw [rosterAux_cons_none htd] at hp
      exact ih seen p hp
    | some pn =>
      by_cases hseen : pn ∈ seen
      · rw [rosterAux_cons_seen htd hseen] at hp
        exact ih seen p hp
      · rw [rosterAux_cons_new htd hseen] at hp
        rcases List.mem_cons.mp hp with rfl | hmem
        · exact ⟨rfl, rfl, rfl, rfl, rfl, rfl⟩
        · exact ih (pn :: seen) p hmem

theorem rosterAux_names :
    ∀ (m : MapDesc) (seen : List String) (n : String),
      n ∈ (rosterAux m seen).map Player.name ↔
        (some n ∈ m.map (fun e => e.2.initPlayer) ∧ n ∉ seen) := by
  intro m
  induction m with
  | nil => intro seen n; simp [rosterAux]
  | cons e rest ih =>
    intro seen n
    obtain ⟨nm, td⟩ := e
    cases htd : td.initPlayer with
    | none =>
      rw [rosterAux_cons_none htd]
      simp only [List.map_cons, List.mem_cons, htd]
      rw [ih seen n]
      constructor
      · rintro ⟨h1, h2⟩
        exact ⟨Or.inr h1, h2⟩
      · rintro ⟨h1 | h1, h2⟩
        · simp at h1
        · exact ⟨h1, h2⟩
    | some pn =>
      by_cases hseen : pn ∈ seen
      · rw [rosterAux_cons_seen htd hseen]
        simp only [List.map_cons, List.mem_cons, htd]
        rw [ih seen n]
        constructor
        · rintro ⟨h1, h2⟩
          exact ⟨Or.inr h1, h2⟩
        · rintro ⟨h1 | h1, h2⟩
          · obtain rfl : n = pn := by simpa using h1
            exact absurd hseen h2
          · exact ⟨h1, h2⟩
      · rw [rosterAux_cons_new htd hseen]
        simp only [List.map_cons, List.mem_cons, htd]
        rw [ih (pn :: seen) n]
        constructor
        · rintro (rfl | ⟨h1, h2⟩)
          · exact ⟨Or.inl rfl, hseen⟩
          · have h2' : n ∉ seen := fun hn => h2 (List.mem_cons_of_mem pn hn)
            exact ⟨Or.inr h1, h2'⟩
        · rintro ⟨h1 | h1, h2⟩
          · obtain rfl : n = pn := by simpa using h1
            exact Or.inl rfl
          · by_cases hpn : n = pn
            · exact Or.inl hpn
            · refine Or.inr ⟨h1, ?_⟩
              simp [List.mem_cons, hpn, h2]

theorem rosterAux_nodup :
    ∀ (m : MapDesc) (seen : List String), ((rosterAux m seen).map Player.name).Nodup := by
  intro m
  induction m with
  | nil => intro seen; simp [rosterAux]
  | cons e rest ih =>
    intro seen
    obtain ⟨nm, td⟩ := e
    cases htd : td.initPlayer with
    | none => rw [rosterAux_cons_none htd]; exact ih seen
    | some pn =>
      by_cases hseen : pn ∈ seen
      · rw [rosterAux_cons_seen htd hseen]
        exact ih seen
      · rw [rosterAux_cons_new htd hseen]
        simp only [List.map_cons, List.nodup_cons]
        refine ⟨fun hmem => ?_, ih (pn :: seen)⟩
        have h := (rosterAux_names rest (pn :: seen) pn).mp hmem
        exact h.2 (List.mem_cons_self ..)

/-- C9: construction pushes first a pseudo-player "public" with zero
units, zero centers, vote already true and ready already true (src
lines 232-238), followed by exactly one Player per distinct non-null
`initPlayer` name of the map, each starting with vote false and ready
false (src lines 239-253). -/
theorem roster_public_then_players (m : MapDesc) (r : RulesDesc) (g : GameState)
    (h : gameConstruct m r = .ok g) :
    g.allPlayers[0]? = some publicPlayer ∧
    publicPlayer.name = "public" ∧ publicPlayer.unitCount = 0 ∧
    publicPlayer.centerCount = 0 ∧ publicPlayer.units = [] ∧
    publicPlayer.vote = true ∧ publicPlayer.ready = true ∧
    (∀ p ∈ g.allPlayers.tail, p.vote = false ∧ p.ready = false ∧ p.unitCount = 0 ∧
      p.centerCount = 0 ∧ p.units = []) ∧
    (g.allPlayers.tail.map Player.name).Nodup ∧
    (∀ n, n ∈ g.allPlayers.tail.map Player.name ↔
      some n ∈ m.map (fun e => e.2.initPlayer)) := by
  obtain ⟨ts, -, rfl⟩ := gameConstruct_ok h
  refine ⟨by simp, rfl, rfl, rfl, rfl, rfl, rfl, ?_, ?_, ?_⟩
  · intro p hp
    obtain ⟨-, h2, h3, h4, h5, h6⟩ := rosterAux_mem m [] p hp
    exact ⟨h5, h6, h3, h2, h4⟩
  · exact rosterAux_nodup m []
  · intro n
    have h' := rosterAux_names m [] n
    simpa using h'

/-- C9 witness: on the example map the roster is "public" followed by
one player "ENG". -/
theorem roster_public_then_players_witness :
    ∃ g, gameConstruct mapEx rulesEx = .ok g ∧
      g.allPlayers[0]? = some publicPlayer ∧
      (∀ n, n ∈ g.allPlayers.tail.map Player.name ↔
        some n ∈ mapEx.map (fun e => e.2.initPlayer)) := by
  refine ⟨_, rfl, ?_, ?_⟩
  · exact (roster_public_then_players mapEx rulesEx _ rfl).1
  · exact (roster_public_then_players mapEx rulesEx _ rfl).2.2.2.2.2.2.2.2.2

/-! ## Case analysis of one step of the initialize loop -/

theorem initStep_cases {m : MapDesc} {ts : List Territory} {ps : List Player}
    {ti : Nat} {ts' : List Territory} {ps' : List Player}
    (h : initStep m ts ps ti = .ok (ts', ps')) :
    (ts' = ts ∧ ps' = ps) ∨
    ∃ t nm td pn ipn pi,
      ts[ti]? = some t ∧ m.find? (fun e => e.1 = t.name) = some (nm, td) ∧
      td.initPlayer = some pn ∧ td.initPart = some ipn ∧
      findIdxL (fun p => p.name = pn) ps = some pi ∧
      ((findIdxL (fun pr => pr.name = ipn) t.parts = none ∧
         ((t.center = 0 ∧ ts' = ts ∧ ps' = ps) ∨
          (t.center ≠ 0 ∧ ts' = updateNth ts ti (setOwner pi) ∧
            ps' = updateNth ps pi (pushCenter ti)))) ∨
       (∃ pj, findIdxL (fun pr => pr.name = ipn) t.parts = some pj ∧
         ((t.center = 0 ∧ ts' = updateNth ts ti (setPartUnit pj pi) ∧
            ps' = updateNth ps pi (pushUnit ti pj)) ∨
          (t.center ≠ 0 ∧
            ts' = updateNth (updateNth ts ti (setPartUnit pj pi)) ti (setOwner pi) ∧
            ps' = updateNth (updateNth ps pi (pushUnit ti pj)) pi (pushCenter ti))))) := by
  unfold initStep at h
  split at h
  · simp only [Except.ok.injEq, Prod.mk.injEq] at h
    exact Or.inl ⟨h.1.symm, h.2.symm⟩
  rename_i t h1
  split at h
  · simp only [Except.ok.injEq, Prod.mk.injEq] at h
    exact Or.inl ⟨h.1.symm, h.2.symm⟩
  rename_i e h2
  split at h
  · simp only [Except.ok.injEq, Prod.mk.injEq] at h
    exact Or.inl ⟨h.1.symm, h.2.symm⟩
  rename_i pn h3
  obtain ⟨nm, td⟩ := e
  obtain ⟨ipn0, hips, h⟩ := except_bind_ok.mp h
  cases h4 : td.initPart with
  | none => rw [h4] at hips; exact absurd hips (by simp [getString])
  | some ipn =>
    rw [h4] at hips
    have hipn : ipn0 = ipn := by
      have h' := hips
      simp only [getString, Except.ok.injEq] at h'
      exact h'.symm
    rw [hipn] at h
    split at h
    · simp only [Except.ok.injEq, Prod.mk.injEq] at h
      exact Or.inl ⟨h.1.symm, h.2.symm⟩
    rename_i pi h5
    refine Or.inr ⟨t, nm, td, pn, ipn, pi, h1, h2, h3, h4, h5, ?_⟩
    cases h6 : findIdxL (fun pr => pr.name = ipn) t.parts with
    | none =>
      rw [h6] at h
      refine Or.inl ⟨rfl, ?_⟩
      by_cases h7 : t.center = 0
      · rw [if_neg (by simpa using h7)] at h
        simp only [Except.ok.injEq, Prod.mk.injEq] at h
        exact Or.inl ⟨h7, h.1.symm, h.2.symm⟩
      · rw [if_pos h7] at h
        simp only [Except.ok.injEq, Prod.mk.injEq] at h
        exact Or.inr ⟨h7, h.1.symm, h.2.symm⟩
    | some pj =>
      rw [h6] at h
      refine Or.inr ⟨pj, rfl, ?_⟩
      by_cases h7 : t.center = 0
      · rw [if_neg (by simpa using h7)] at h
        simp only [Except.ok.injEq, Prod.mk.injEq] at h
        exact Or.inl ⟨h7, h.1.symm, h.2.symm⟩
      · rw [if_pos h7] at h
        simp only [Except.ok.injEq, Prod.mk.injEq] at h
        exact Or.inr ⟨h7, h.1.symm, h.2.symm⟩

theorem partUnit_name (pi : Nat) (pr : Part) :
    (Part.name { pr with unit := some pi }) = pr.name := rfl

theorem pushUnit_name (ti pj : Nat) (p : Player) : (pushUnit ti pj p).name = p.name := rfl

theorem pushCenter_name (ti : Nat) (p : Player) : (pushCenter ti p).name = p.name := rfl

theorem terrSkel_setPartUnit (pj pi : Nat) (tt : Territory) :
    terrSkel (setPartUnit pj pi tt) = terrSkel tt := by
  have h := updateNth_map_invariant (partUnit_name pi) tt.parts pj
  unfold terrSkel setPartUnit
  exact congrArg (fun l => (tt.name, tt.center, l)) h

theorem terrSkel_setOwner (pi : Nat) (tt : Territory) :
    terrSkel (setOwner pi tt) = terrSkel tt := rfl

theorem initStep_skel {m : MapDesc} {ts : List Territory} {ps : List Player}
    {ti : Nat} {ts' : List Territory} {ps' : List Player}
    (h : initStep m ts ps ti = .ok (ts', ps')) :
    ts'.map terrSkel = ts.map terrSkel ∧ ps'.map Player.name = ps.map Player.name := by
  rcases initStep_cases h with ⟨rfl, rfl⟩ |
    ⟨t, nm, td, pn, ipn, pi, -, -, -, -, -,
      ⟨-, ⟨-, rfl, rfl⟩ | ⟨-, rfl, rfl⟩⟩ | ⟨pj, -, ⟨-, rfl, rfl⟩ | ⟨-, rfl, rfl⟩⟩⟩
  · exact ⟨rfl, rfl⟩
  · exact ⟨rfl, rfl⟩
  · exact ⟨updateNth_map_invariant (terrSkel_setOwner pi) ts ti,
      updateNth_map_invariant (pushCenter_name ti) ps pi⟩
  · exact ⟨updateNth_map_invariant (terrSkel_setPartUnit pj pi) ts ti,
      updateNth_map_invariant (pushUnit_name ti pj) ps pi⟩
  · refine ⟨?_, ?_⟩
    · rw [updateNth_map_invariant (terrSkel_setOwner pi),
        updateNth_map_invariant (terrSkel_setPartUnit pj pi)]
    · rw [updateNth_map_invariant (pushCenter_name ti),
        updateNth_map_invariant (pushUnit_name ti pj)]

theorem initStep_getElem_ne {m : MapDesc} {ts : List Territory} {ps : List Player}
    {ti : Nat} {ts' : List Territory} {ps' : List Player}
    (h : initStep m ts ps ti = .ok (ts', ps')) {k : Nat} (hne : k ≠ ti) :
    ts'[k]? = ts[k]? := by
  rcases initStep_cases h with ⟨rfl, rfl⟩ |
    ⟨t, nm, td, pn, ipn, pi, -, -, -, -, -,
      ⟨-, ⟨-, rfl, rfl⟩ | ⟨-, rfl, rfl⟩⟩ | ⟨pj, -, ⟨-, rfl, rfl⟩ | ⟨-, rfl, rfl⟩⟩⟩
  · rfl
  · rfl
  · rw [updateNth_getElem?, if_neg hne]
  · rw [updateNth_getElem?, if_neg hne]
  · rw [updateNth_getElem?, if_neg hne, updateNth_getElem?, if_neg hne]

theorem initFold_skel {m : MapDesc} :
    ∀ {is : List Nat} {ts : List Territory} {ps : List Player}
      {ts' : List Territory} {ps' : List Player},
      initFold m is ts ps = .ok (ts', ps') →
      ts'.map terrSkel = ts.map terrSkel ∧ ps'.map Player.name = ps.map Player.name := by
  intro is
  induction is with
  | nil =>
    intro ts ps ts' ps' h
    simp only [initFold, Except.ok.injEq, Prod.mk.injEq] at h
    rw [← h.1, ← h.2]
    exact ⟨rfl, rfl⟩
  | cons ti rest ih =>
    intro ts ps ts' ps' h
    simp only [initFold] at h
    obtain ⟨r0, hr0, h2⟩ := except_bind_ok.mp h
    obtain ⟨ts0, ps0⟩ := r0
    obtain ⟨hs1, hs2⟩ := initStep_skel hr0
    obtain ⟨hs1', hs2'⟩ := ih h2
    exact ⟨hs1'.trans hs1, hs2'.trans hs2⟩

theorem initFold_getElem_not_mem {m : MapDesc} :
    ∀ {is : List Nat} {ts : List Territory} {ps : List Player}
      {ts' : List Territory} {ps' : List Player} {k : Nat},
      initFold m is ts ps = .ok (ts', ps') → k ∉ is → ts'[k]? = ts[k]? := by
  intro is
  induction is with
  | nil =>
    intro ts ps ts' ps' k h _
    simp only [initFold, Except.ok.injEq, Prod.mk.injEq] at h
    rw [← h.1]
  | cons ti rest ih =>
    intro ts ps ts' ps' k h hk
    simp only [initFold] at h
    obtain ⟨r0, hr0, h2⟩ := except_bind_ok.mp h
    obtain ⟨ts0, ps0⟩ := r0
    have hkti : k ≠ ti := fun hkk => hk (hkk ▸ List.mem_cons_self ..)
    have hkrest : k ∉ rest := fun hr => hk (List.mem_cons_of_mem _ hr)
    rw [ih h2 hkrest, initStep_getElem_ne hr0 hkti]

/-! ## Alignment of constructed territories with the map description -/

theorem find?_key_of_nodup :
    ∀ {m : MapDesc} {k : Nat} {nm : String} {td : TerritoryDesc},
      (m.map Prod.fst).Nodup → m[k]? = some (nm, td) →
      m.find? (fun e => e.1 = nm) = some (nm, td) := by
  intro m
  induction m with
  | nil => intro k nm td _ h; simp at h
  | cons e rest ih =>
    intro k nm td hnd h
    obtain ⟨nm', td'⟩ := e
    simp only [List.map_cons, List.nodup_cons] at hnd
    cases k with
    | zero =>
      simp only [List.getElem?_cons_zero, Option.some_inj, Prod.mk.injEq] at h
      obtain ⟨rfl, rfl⟩ := h
      exact List.find?_cons_of_pos _ (by simp)
    | succ k =>
      simp only [List.getElem?_cons_succ] at h
      have hmem : nm ∈ rest.map Prod.fst := by
        have := List.getElem?_mem h
        exact List.mem_map.mpr ⟨(nm, td), this, rfl⟩
      have hne : nm' ≠ nm := fun hEq => hnd.1 (hEq ▸ hmem)
      rw [List.find?_cons_of_neg _ (by simp [hne])]
      exact ih hnd.2 h

theorem buildTerritories_align :
    ∀ {i : Nat} {m : MapDesc} {ts : List Territory}, buildTerritories i m = .ok ts →
      ts.length = m.length ∧
      ∀ (k : Nat) (nm : String) (td : TerritoryDesc), m[k]? = some (nm, td) →
        ∃ t, ts[k]? = some t ∧ t.name = nm ∧ t.center = td.center ∧ t.owner = none ∧
          buildParts (i + k) td.entries = .ok t.parts := by
  intro i m
  induction m generalizing i with
  | nil =>
    intro ts h
    simp only [buildTerritories, Except.ok.injEq] at h
    subst h
    exact ⟨rfl, by intro k nm td h; simp at h⟩
  | cons e rest ih =>
    intro ts h
    obtain ⟨nm', td'⟩ := e
    simp only [buildTerritories] at h
    obtain ⟨parts, hparts, h2⟩ := except_bind_ok.mp h
    obtain ⟨ts0, hts0, h3⟩ := except_bind_ok.mp h2
    simp only [Except.ok.injEq] at h3
    subst h3
    obtain ⟨hlen, halign⟩ := ih hts0
    refine ⟨by simp [hlen], ?_⟩
    intro k nm td hk
    cases k with
    | zero =>
      simp only [List.getElem?_cons_zero, Option.some_inj, Prod.mk.injEq] at hk
      obtain ⟨rfl, rfl⟩ := hk
      refine ⟨{ name := nm', parts := parts, center := td'.center, owner := none },
        by simp, rfl, rfl, rfl, ?_⟩
      simpa using hparts
    | succ k =>
      simp only [List.getElem?_cons_succ] at hk
      obtain ⟨t, ht, h1, h2', h3', h4'⟩ := halign k nm td hk
      refine ⟨t, by simpa using ht, h1, h2', h3', ?_⟩
      have : i + (k + 1) = (i + 1) + k := by omega
      rw [this]
      exact h4'

/-! ## A null initPart aborts initialization -/

theorem initStep_error_of_null {m : MapDesc} {ts : List Territory} {ps : List Player}
    {ti : Nat} {t : Territory} {nm : String} {td : TerritoryDesc}
    (hts : ts[ti]? = some t)
    (hfind : m.find? (fun e => e.1 = t.name) = some (nm, td))
    (hip : td.initPlayer.isSome = true) (hnull : td.initPart = none) :
    ∃ msg, initStep m ts ps ti = .error msg := by
  obtain ⟨pn, hpn⟩ := Option.isSome_iff_exists.mp hip
  refine ⟨"[json.exception.type_error.302] type must be string, but is null", ?_⟩
  unfold initStep
  rw [hts]
  show (match m.find? (fun e => e.1 = t.name) with
    | none => Except.ok (ts, ps)
    | some e =>
      match e.2.initPlayer with
      | none => Except.ok (ts, ps)
      | some pn => do
        let ipn ← getString e.2.initPart
        match findIdxL (fun p : Player => p.name = pn) ps with
        | none => Except.ok (ts, ps)
        | some pi =>
          let tsps :=
            match findIdxL (fun pr : Part => pr.name = ipn) t.parts with
            | none => (ts, ps)
            | some pj =>
              (updateNth ts ti (setPartUnit pj pi),
               updateNth ps pi (pushUnit ti pj))
          if t.center ≠ 0 then
            .ok (updateNth tsps.1 ti (setOwner pi),
                 updateNth tsps.2 pi (pushCenter ti))
          else .ok tsps) = _
  rw [hfind]
  show (match td.initPlayer with
    | none => Except.ok (ts, ps)
    | some pn => do
      let ipn ← getString td.initPart
      match findIdxL (fun p : Player => p.name = pn) ps with
      | none => Except.ok (ts, ps)
      | some pi =>
        let tsps :=
          match findIdxL (fun pr : Part => pr.name = ipn) t.parts with
          | none => (ts, ps)
          | some pj =>
            (updateNth ts ti (setPartUnit pj pi),
             updateNth ps pi (pushUnit ti pj))
        if t.center ≠ 0 then
          .ok (updateNth tsps.1 ti (setOwner pi),
               updateNth tsps.2 pi (pushCenter ti))
        else .ok tsps) = _
  rw [hpn]
  show (do
      let ipn ← getString td.initPart
      match findIdxL (fun p : Player => p.name = pn) ps with
      | none => Except.ok (ts, ps)
      | some pi =>
        let tsps :=
          match findIdxL (fun pr : Part => pr.name = ipn) t.parts with
          | none => (ts, ps)
          | some pj =>
            (updateNth ts ti (setPartUnit pj pi),
             updateNth ps pi (pushUnit ti pj))
        if t.center ≠ 0 then
          .ok (updateNth tsps.1 ti (setOwner pi),
               updateNth tsps.2 pi (pushCenter ti))
        else .ok tsps) = _
  rw [hnull]
  rfl

theorem initFold_error_of_null {m : MapDesc} :
    ∀ {is : List Nat} {ts : List Territory} {ps : List Player} {k : Nat}
      {t : Territory} {nm : String} {td : TerritoryDesc},
      k ∈ is → ts[k]? = some t →
      m.find? (fun e => e.1 = t.name) = some (nm, td) →
      td.initPlayer.isSome = true → td.initPart = none →
      ∃ msg, initFold m is ts ps = .error msg := by
  intro is
  induction is with
  | nil => intro ts ps k t nm td hk; simp at hk
  | cons ti rest ih =>
    intro ts ps k t nm td hk hts hfind hip hnull
    by_cases hek : ti = k
    · subst hek
      have hstep : ∃ msg, initStep m ts ps ti = .error msg :=
        initStep_error_of_null hts hfind hip hnull
      obtain ⟨msg, hmsg⟩ := hstep
      refine ⟨msg, ?_⟩
      simp [initFold, hmsg, Bind.bind, Except.bind]
    · cases hstep : initStep m ts ps ti with
      | error msg =>
        refine ⟨msg, ?_⟩
        simp [initFold, hstep, Bind.bind, Except.bind]
      | ok r0 =>
        obtain ⟨ts0, ps0⟩ := r0
        have hk' : k ∈ rest := by
          rcases List.mem_cons.mp hk with rfl | hk'
          · exact absurd rfl hek
          · exact hk'
        have hts0 : ts0[k]? = some t := by
          rw [initStep_getElem_ne hstep (fun hkk => hek hkk.symm)]
          exact hts
        have hrec : ∃ msg, initFold m rest ts0 ps0 = .error msg :=
          ih hk' hts0 hfind hip hnull
        obtain ⟨msg, hmsg⟩ := hrec
        refine ⟨msg, ?_⟩
        simp [initFold, hstep, hmsg, Bind.bind, Except.bind]

/-- C5 amended: a map in which some territory has a non-null
`initPlayer` but a JSON-null `initPart` does construct, but
`Game::initialize` then raises nlohmann's type_error.302 when
converting the null `initPart` to `std::string` (src line 263), so
`main` aborts with exit code 1 instead of completing — null `initPart`
is not tolerated alongside a non-null `initPlayer`. -/
theorem null_initPart_fatal (m : MapDesc) (r : RulesDesc) (g : GameState)
    (hnd : (m.map Prod.fst).Nodup)
    (hbad : ∃ e ∈ m, e.2.initPlayer.isSome = true ∧ e.2.initPart = none)
    (hc : gameConstruct m r = .ok g) :
    ∃ msg, initializeGame g = .error msg := by
  obtain ⟨ts, hts, rfl⟩ := gameConstruct_ok hc
  obtain ⟨e, hem, hip, hnull⟩ := hbad
  obtain ⟨k, hk⟩ := List.get_of_mem hem
  have hk' : m[k.1]? = some e := by
    rw [List.getElem?_eq_getElem k.2]
    simpa using congrArg some hk
  obtain ⟨nm, td⟩ := e
  obtain ⟨hlen, halign⟩ := buildTerritories_align hts
  obtain ⟨t, htk, htnm, -, -, -⟩ := halign k.1 nm td hk'
  have hfind : m.find? (fun e => e.1 = t.name) = some (nm, td) := by
    rw [htnm]
    exact find?_key_of_nodup hnd hk'
  have hkmem : k.1 ∈ List.range ts.length := by
    rw [List.mem_range, hlen]
    exact k.2
  have hfold : ∃ msg, initFold m (List.range ts.length) ts
      (publicPlayer :: rosterAux m []) = .error msg :=
    initFold_error_of_null hkmem htk hfind hip hnull
  obtain ⟨msg, hmsg⟩ := hfold
  refine ⟨msg, ?_⟩
  unfold initializeGame
  simp [hmsg, Bind.bind, Except.bind]

/-- C5 amended witness: on the concrete null-`initPart` map the
construct-then-initialize pipeline raises an error. -/
theorem null_initPart_fatal_witness :
    ∃ msg, (do
      let g ← gameConstruct mapNullInitPart rulesEx
      initializeGame g : Except String GameState) = .error msg := by
  obtain ⟨g, hg⟩ : ∃ g, gameConstruct mapNullInitPart rulesEx = .ok g := ⟨_, rfl⟩
  obtain ⟨msg, hmsg⟩ :=
    null_initPart_fatal mapNullInitPart rulesEx g (by decide) (by decide) hg
  exact ⟨msg, by simp [hg, hmsg, Bind.bind, Except.bind]⟩

/-! ## Auxiliary lemmas for the initialize-loop invariant -/

theorem ownedCount_updateNth {f : Territory → Territory}
    (howner : ∀ t, (f t).owner = t.owner) (pi : Nat) :
    ∀ (ts : List Territory) (ti : Nat),
      ownedCount (updateNth ts ti f) pi = ownedCount ts pi := by
  intro ts
  induction ts with
  | nil => intro ti; rfl
  | cons x xs ih =>
    intro ti
    cases ti with
    | zero =>
      simp only [updateNth, ownedCount, List.filter_cons, howner x]
      split <;> simp
    | succ ti =>
      have hrec := ih ti
      simp only [ownedCount] at hrec ⊢
      simp only [updateNth, List.filter_cons]
      split
      · simp only [List.length_cons]
        omega
      · omega

theorem ownedCount_update_own {f : Territory → Territory} {pi : Nat}
    (hf : ∀ t, t.owner = none → (f t).owner = some pi) (pi' : Nat) :
    ∀ (ts : List Territory) (ti : Nat) (t : Territory),
      ts[ti]? = some t → t.owner = none →
      ownedCount (updateNth ts ti f) pi' = ownedCount ts pi' + (if pi' = pi then 1 else 0) := by
  intro ts
  induction ts with
  | nil => intro ti t h; simp at h
  | cons x xs ih =>
    intro ti t hts hnone
    cases ti with
    | zero =>
      have hxt : x = t := by simpa using hts
      subst hxt
      simp only [updateNth, ownedCount, List.filter_cons, hf x hnone, hnone]
      by_cases hpp : pi' = pi
      · subst hpp
        simp
      · simp [hpp, Ne.symm hpp]
    | succ ti =>
      simp only [List.getElem?_cons_succ] at hts
      have hrec := ih ti t hts hnone
      simp only [ownedCount] at hrec ⊢
      simp only [updateNth, List.filter_cons]
      split
      · simp only [List.length_cons]
        omega
      · omega

theorem mem_updateNth {α : Type} {f : α → α} :
    ∀ {l : List α} {n : Nat} {a : α}, a ∈ updateNth l n f →
      a ∈ l ∨ ∃ b, l[n]? = some b ∧ a = f b := by
  intro l
  induction l with
  | nil => intro n a h; simp [updateNth] at h
  | cons x xs ih =>
    intro n a h
    cases n with
    | zero =>
      rcases List.mem_cons.mp h with rfl | hmem
      · exact Or.inr ⟨x, by simp, rfl⟩
      · exact Or.inl (List.mem_cons_of_mem x hmem)
    | succ n =>
      rcases List.mem_cons.mp h with rfl | hmem
      · exact Or.inl (List.mem_cons_self ..)
      · rcases ih hmem with h1 | ⟨b, hb, rfl⟩
        · exact Or.inl (List.mem_cons_of_mem x h1)
        · exact Or.inr ⟨b, by simpa using hb, rfl⟩

theorem partAt_updateNth_ne {ts : List Territory} {ti : Nat} {f : Territory → Territory}
    {u : Nat × Nat} (h : u.1 ≠ ti) : partAt (updateNth ts ti f) u = partAt ts u := by
  unfold partAt
  rw [updateNth_getElem?, if_neg h]

theorem partAt_updateNth_parts_eq {ts : List Territory} {ti : Nat}
    {f : Territory → Territory} (hp : ∀ t, (f t).parts = t.parts) (u : Nat × Nat) :
    partAt (updateNth ts ti f) u = partAt ts u := by
  unfold partAt
  rw [updateNth_getElem?]
  by_cases he : u.1 = ti
  · rw [if_pos he, he]
    cases hts : ts[ti]? with
    | none => rfl
    | some t => simp [hp t]
  · rw [if_neg he]

theorem updateNth_getElem?_cases {α : Type} {l : List α} {n k : Nat} {f : α → α} {a : α}
    (h : (updateNth l n f)[k]? = some a) :
    (k = n ∧ ∃ b, l[n]? = some b ∧ a = f b) ∨ (k ≠ n ∧ l[k]? = some a) := by
  rw [updateNth_getElem?] at h
  by_cases he : k = n
  · rw [if_pos he] at h
    cases hb : l[n]? with
    | none =>
      rw [hb, Option.map_none'] at h
      cases h
    | some b =>
      rw [hb, Option.map_some'] at h
      exact Or.inl ⟨he, b, rfl, (Option.some_inj.mp h).symm⟩
  · rw [if_neg he] at h
    exact Or.inr ⟨he, h⟩

theorem center_preserved_updateNth {ts : List Territory} {ti : Nat}
    {f : Territory → Territory} (hf : ∀ t, (f t).center = t.center) {k : Nat}
    {t0 : Territory} (h0 : ts[k]? = some t0) (hcen : t0.center ≠ 0) :
    ∃ t1, (updateNth ts ti f)[k]? = some t1 ∧ t1.center ≠ 0 := by
  rw [updateNth_getElem?]
  by_cases he : k = ti
  · rw [if_pos he, ← he, h0]
    exact ⟨f t0, rfl, by rw [hf t0]; exact hcen⟩
  · rw [if_neg he]
    exact ⟨t0, h0, hcen⟩

theorem InitInv.weaken {ts : List Territory} {ps : List Player} {ti : Nat}
    {rest : List Nat} (hinv : InitInv ts ps (ti :: rest)) : InitInv ts ps rest := by
  constructor
  · exact hinv.unitCount_eq
  · exact hinv.units_point
  · exact hinv.centerCount_eq
  · intro pi p hp u hu hmem
    exact hinv.units_done pi p hp u hu (List.mem_cons_of_mem ti hmem)
  · intro ti' hti' t hts
    exact hinv.pending_unowned ti' (List.mem_cons_of_mem ti hti') t hts
  · exact hinv.owner_center
  · exact hinv.allowBuild_center

theorem initStep_inv {m : MapDesc} {ts : List Territory} {ps : List Player}
    {ti : Nat} {rest : List Nat} {ts' : List Territory} {ps' : List Player}
    (h : initStep m ts ps ti = .ok (ts', ps'))
    (hinv : InitInv ts ps (ti :: rest)) (hni : ti ∉ rest) :
    InitInv ts' ps' rest := by
  rcases initStep_cases h with ⟨rfl, rfl⟩ |
    ⟨t, nm, td, pn, ipn, pi0, hts, hfind, hip, hipt, hfpl, hcase⟩
  · exact hinv.weaken
  have htmem : t ∈ ts := List.getElem?_mem hts
  have htnone : t.owner = none := hinv.pending_unowned ti (List.mem_cons_self ..) t hts
  rcases hcase with ⟨hfpt, hsub⟩ | ⟨pj, hfpt, hsub⟩
  · rcases hsub with ⟨hc0, rfl, rfl⟩ | ⟨hc0, rfl, rfl⟩
    · exact hinv.weaken
    · constructor
      · intro pi p hp
        rcases updateNth_getElem?_cases hp with ⟨rfl, b, hb, rfl⟩ | ⟨hne, hp'⟩
        · simpa [pushCenter] using hinv.unitCount_eq pi b hb
        · exact hinv.unitCount_eq pi p hp'
      · intro pi p hp u hu
        rw [partAt_updateNth_parts_eq (f := setOwner pi0) (fun t => rfl)]
        rcases updateNth_getElem?_cases hp with ⟨rfl, b, hb, rfl⟩ | ⟨hne, hp'⟩
        · exact hinv.units_point pi b hb u (by simpa [pushCenter] using hu)
        · exact hinv.units_point pi p hp' u hu
      · intro pi p hp
        rcases updateNth_getElem?_cases hp with ⟨rfl, b, hb, rfl⟩ | ⟨hne, hp'⟩
        · have hocc := ownedCount_update_own (f := setOwner pi)
            (fun _ _ => rfl) pi ts ti t hts htnone
          have hbc := hinv.centerCount_eq pi b hb
          simp only [pushCenter]
          rw [hocc, if_pos rfl]
          push_cast
          omega
        · have hocc := ownedCount_update_own (f := setOwner pi0)
            (fun _ _ => rfl) pi ts ti t hts htnone
          have hbc := hinv.centerCount_eq pi p hp'
          rw [hocc, if_neg hne]
          simpa using hbc
      · intro pi p hp u hu hmem
        rcases updateNth_getElem?_cases hp with ⟨rfl, b, hb, rfl⟩ | ⟨hne, hp'⟩
        · exact hinv.units_done pi b hb u (by simpa [pushCenter] using hu)
            (List.mem_cons_of_mem ti hmem)
        · exact hinv.units_done pi p hp' u hu (List.mem_cons_of_mem ti hmem)
      · intro ti' hti' t' hts'
        have hne : ti' ≠ ti := fun hEq => hni (hEq ▸ hti')
        rw [updateNth_getElem?, if_neg hne] at hts'
        exact hinv.pending_unowned ti' (List.mem_cons_of_mem ti hti') t' hts'
      · intro t' ht' hown
        rcases mem_updateNth ht' with hmem | ⟨b, hb, rfl⟩
        · exact hinv.owner_center t' hmem hown
        · have hbt : b = t := by
            rw [hb] at hts
            exact Option.some_inj.mp hts
          show (setOwner pi0 b).center ≠ 0
          rw [show (setOwner pi0 b).center = b.center from rfl, hbt]
          exact hc0
      · intro pi p hp k hk
        rcases updateNth_getElem?_cases hp with ⟨rfl, b, hb, rfl⟩ | ⟨hne, hp'⟩
        · have hk' : k ∈ b.allowBuild ∨ k = ti := by simpa [pushCenter] using hk
          rcases hk' with hk1 | hkti
          · obtain ⟨t0, ht0, hcen⟩ := hinv.allowBuild_center pi b hb k hk1
            exact center_preserved_updateNth (f := setOwner pi) (fun _ => rfl) ht0 hcen
          · subst hkti
            exact center_preserved_updateNth (f := setOwner pi) (fun _ => rfl) hts hc0
        · obtain ⟨t0, ht0, hcen⟩ := hinv.allowBuild_center pi p hp' k hk
          exact center_preserved_updateNth (f := setOwner pi0) (fun _ => rfl) ht0 hcen
  · obtain ⟨pr, hpr, hprn⟩ := findIdxL_some hfpt
    rcases hsub with ⟨hc0, rfl, rfl⟩ | ⟨hc0, rfl, rfl⟩
    · constructor
      · intro pi p hp
        rcases updateNth_getElem?_cases hp with ⟨rfl, b, hb, rfl⟩ | ⟨hne, hp'⟩
        · have hbu := hinv.unitCount_eq pi b hb
          simp only [pushUnit, List.length_append, List.length_cons, List.length_nil]
          push_cast
          omega
        · exact hinv.unitCount_eq pi p hp'
      · intro pi p hp u hu
        rcases updateNth_getElem?_cases hp with ⟨rfl, b, hb, rfl⟩ | ⟨hne, hp'⟩
        · have hu' : u ∈ b.units ∨ u = (ti, pj) := by simpa [pushUnit] using hu
          rcases hu' with hu1 | hu2
          · have hneu : u.1 ≠ ti := fun hEq =>
              hinv.units_done pi b hb u hu1 (hEq ▸ List.mem_cons_self ..)
            rw [partAt_updateNth_ne hneu]
            exact hinv.units_point pi b hb u hu1
          · subst hu2
            refine ⟨{ pr with unit := some pi }, ?_, rfl⟩
            have h1 : (updateNth ts ti (setPartUnit pj pi))[ti]? =
                some (setPartUnit pj pi t) := by
              rw [updateNth_getElem?, if_pos rfl, hts, Option.map_some']
            have h2 : (setPartUnit pj pi t).parts[pj]? =
                some { pr with unit := some pi } := by
              show (updateNth t.parts pj _)[pj]? = _
              rw [updateNth_getElem?, if_pos rfl, hpr, Option.map_some']
            unfold partAt
            rw [h1]
            exact h2
        · have hneu : u.1 ≠ ti := fun hEq =>
            hinv.units_done pi p hp' u hu (hEq ▸ List.mem_cons_self ..)
          rw [partAt_updateNth_ne hneu]
          exact hinv.units_point pi p hp' u hu
      · intro pi p hp
        have hocc := ownedCount_updateNth (f := setPartUnit pj pi0) (fun _ => rfl) pi ts ti
        rcases updateNth_getElem?_cases hp with ⟨rfl, b, hb, rfl⟩ | ⟨hne, hp'⟩
        · have hbc := hinv.centerCount_eq pi b hb
          simp only [pushUnit]
          rw [hocc]
          exact hbc
        · rw [hocc]
          exact hinv.centerCount_eq pi p hp'
      · intro pi p hp u hu hmem
        rcases updateNth_getElem?_cases hp with ⟨rfl, b, hb, rfl⟩ | ⟨hne, hp'⟩
        · have hu' : u ∈ b.units ∨ u = (ti, pj) := by simpa [pushUnit] using hu
          rcases hu' with hu1 | hu2
          · exact hinv.units_done pi b hb u hu1 (List.mem_cons_of_mem ti hmem)
          · subst hu2
            exact hni hmem
        · exact hinv.units_done pi p hp' u hu (List.mem_cons_of_mem ti hmem)
      · intro ti' hti' t' hts'
        have hne : ti' ≠ ti := fun hEq => hni (hEq ▸ hti')
        rw [updateNth_getElem?, if_neg hne] at hts'
        exact hinv.pending_unowned ti' (List.mem_cons_of_mem ti hti') t' hts'
      · intro t' ht' hown
        rcases mem_updateNth ht' with hmem | ⟨b, hb, rfl⟩
        · exact hinv.owner_center t' hmem hown
        · have hbt : b = t := by
            rw [hb] at hts
            exact Option.some_inj.mp hts
          refine absurd ?_ hown
          show (setPartUnit pj pi0 b).owner = none
          rw [show (setPartUnit pj pi0 b).owner = b.owner from rfl, hbt]
          exact htnone
      · intro pi p hp k hk
        rcases updateNth_getElem?_cases hp with ⟨rfl, b, hb, rfl⟩ | ⟨hne, hp'⟩
        · obtain ⟨t0, ht0, hcen⟩ :=
            hinv.allowBuild_center pi b hb k (by simpa [pushUnit] using hk)
          exact center_preserved_updateNth (f := setPartUnit pj pi) (fun _ => rfl) ht0 hcen
        · obtain ⟨t0, ht0, hcen⟩ := hinv.allowBuild_center pi p hp' k hk
          exact center_preserved_updateNth (f := setPartUnit pj pi0) (fun _ => rfl) ht0 hcen
    · rw [updateNth_updateNth_same, updateNth_updateNth_same]
      constructor
      · intro pi p hp
        rcases updateNth_getElem?_cases hp with ⟨rfl, b, hb, rfl⟩ | ⟨hne, hp'⟩
        · have hbu := hinv.unitCount_eq pi b hb
          simp only [Function.comp, pushCenter, pushUnit, List.length_append,
            List.length_cons, List.length_nil]
          push_cast
          omega
        · exact hinv.unitCount_eq pi p hp'
      · intro pi p hp u hu
        rcases updateNth_getElem?_cases hp with ⟨rfl, b, hb, rfl⟩ | ⟨hne, hp'⟩
        · have hu' : u ∈ b.units ∨ u = (ti, pj) := by
            simpa [Function.comp, pushCenter, pushUnit] using hu
          rcases hu' with hu1 | hu2
          · have hneu : u.1 ≠ ti := fun hEq =>
              hinv.units_done pi b hb u hu1 (hEq ▸ List.mem_cons_self ..)
            rw [partAt_updateNth_ne hneu]
            exact hinv.units_point pi b hb u hu1
          · subst hu2
            refine ⟨{ pr with unit := some pi }, ?_, rfl⟩
            have h1 : (updateNth ts ti (setOwner pi ∘ setPartUnit pj pi))[ti]? =
                some ((setOwner pi ∘ setPartUnit pj pi) t) := by
              rw [updateNth_getElem?, if_pos rfl, hts, Option.map_some']
            have h2 : ((setOwner pi ∘ setPartUnit pj pi) t).parts[pj]? =
                some { pr with unit := some pi } := by
              show (updateNth t.parts pj _)[pj]? = _
              rw [updateNth_getElem?, if_pos rfl, hpr, Option.map_some']
            unfold partAt
            rw [h1]
            exact h2
        · have hneu : u.1 ≠ ti := fun hEq =>
            hinv.units_done pi p hp' u hu (hEq ▸ List.mem_cons_self ..)
          rw [partAt_updateNth_ne hneu]
          exact hinv.units_point pi p hp' u hu
      · intro pi p hp
        rcases updateNth_getElem?_cases hp with ⟨rfl, b, hb, rfl⟩ | ⟨hne, hp'⟩
        · have hocc := ownedCount_update_own (f := setOwner pi ∘ setPartUnit pj pi)
            (fun _ _ => rfl) pi ts ti t hts htnone
          have hbc := hinv.centerCount_eq pi b hb
          simp only [Function.comp, pushCenter, pushUnit]
          rw [hocc, if_pos rfl]
          push_cast
          omega
        · have hocc := ownedCount_update_own (f := setOwner pi0 ∘ setPartUnit pj pi0)
            (fun _ _ => rfl) pi ts ti t hts htnone
          have hbc := hinv.centerCount_eq pi p hp'
          rw [hocc, if_neg hne]
          simpa using hbc
      · intro pi p hp u hu hmem
        rcases updateNth_getElem?_cases hp with ⟨rfl, b, hb, rfl⟩ | ⟨hne, hp'⟩
        · have hu' : u ∈ b.units ∨ u = (ti, pj) := by
            simpa [Function.comp, pushCenter, pushUnit] using hu
          rcases hu' with hu1 | hu2
          · exact hinv.units_done pi b hb u hu1 (List.mem_cons_of_mem ti hmem)
          · subst hu2
            exact hni hmem
        · exact hinv.units_done pi p hp' u hu (List.mem_cons_of_mem ti hmem)
      · intro ti' hti' t' hts'
        have hne : ti' ≠ ti := fun hEq => hni (hEq ▸ hti')
        rw [updateNth_getElem?, if_neg hne] at hts'
        exact hinv.pending_unowned ti' (List.mem_cons_of_mem ti hti') t' hts'
      · intro t' ht' hown
        rcases mem_updateNth ht' with hmem | ⟨b, hb, rfl⟩
        · exact hinv.owner_center t' hmem hown
        · have hbt : b = t := by
            rw [hb] at hts
            exact Option.some_inj.mp hts
          show ((setOwner pi0 ∘ setPartUnit pj pi0) b).center ≠ 0
          rw [show ((setOwner pi0 ∘ setPartUnit pj pi0) b).center = b.center from rfl, hbt]
          exact hc0
      · intro pi p hp k hk
        rcases updateNth_getElem?_cases hp with ⟨rfl, b, hb, rfl⟩ | ⟨hne, hp'⟩
        · have hk' : k ∈ b.allowBuild ∨ k = ti := by
            simpa [Function.comp, pushCenter, pushUnit] using hk
          rcases hk' with hk1 | hkti
          · obtain ⟨t0, ht0, hcen⟩ := hinv.allowBuild_center pi b hb k hk1
            exact center_preserved_updateNth (f := setOwner pi ∘ setPartUnit pj pi)
              (fun _ => rfl) ht0 hcen
          · subst hkti
            exact center_preserved_updateNth (f := setOwner pi ∘ setPartUnit pj pi)
              (fun _ => rfl) hts hc0
        · obtain ⟨t0, ht0, hcen⟩ := hinv.allowBuild_center pi p hp' k hk
          exact center_preserved_updateNth (f := setOwner pi0 ∘ setPartUnit pj pi0)
            (fun _ => rfl) ht0 hcen

theorem initFold_inv {m : MapDesc} :
    ∀ {is : List Nat} {ts : List Territory} {ps : List Player}
      {ts' : List Territory} {ps' : List Player},
      initFold m is ts ps = .ok (ts', ps') → InitInv ts ps is → is.Nodup →
      InitInv ts' ps' [] := by
  intro is
  induction is with
  | nil =>
    intro ts ps ts' ps' h hinv _
    simp only [initFold, Except.ok.injEq, Prod.mk.injEq] at h
    obtain ⟨rfl, rfl⟩ := h
    exact hinv
  | cons ti rest ih =>
    intro ts ps ts' ps' h hinv hnd
    simp only [initFold] at h
    obtain ⟨r0, hr0, h2⟩ := except_bind_ok.mp h
    obtain ⟨ts0, ps0⟩ := r0
    simp only [List.nodup_cons] at hnd
    exact ih h2 (initStep_inv hr0 hinv hnd.1) hnd.2

theorem ownedCount_zero {ts : List Territory} (h : ∀ t ∈ ts, t.owner = none)
    (pi : Nat) : ownedCount ts pi = 0 := by
  induction ts with
  | nil => rfl
  | cons x xs ih =>
    have hx := h x (List.mem_cons_self ..)
    simp only [ownedCount, List.filter_cons, hx]
    simpa [ownedCount] using ih (fun t ht => h t (List.mem_cons_of_mem x ht))

theorem initInv_initial {m : MapDesc} {r : RulesDesc} {g : GameState}
    (h : gameConstruct m r = .ok g) (is : List Nat) :
    InitInv g.allTerritories g.allPlayers is := by
  obtain ⟨ts, hts, rfl⟩ := gameConstruct_ok h
  have hterr := buildTerritories_mem hts
  have hpl : ∀ p ∈ (publicPlayer :: rosterAux m []),
      p.units = ([] : List (Nat × Nat)) ∧ p.unitCount = 0 ∧ p.centerCount = 0 ∧
      p.allowBuild = ([] : List Nat) := by
    intro p hp
    rcases List.mem_cons.mp hp with rfl | hmem
    · exact ⟨rfl, rfl, rfl, rfl⟩
    · obtain ⟨h1, h2, h3, h4, -, -⟩ := rosterAux_mem m [] p hmem
      exact ⟨h4, h3, h2, h1⟩
  have howners : ∀ t ∈ ts, t.owner = none := fun t ht => (hterr t ht).1
  constructor
  · intro pi p hp
    obtain ⟨h1, h2, -, -⟩ := hpl p (List.getElem?_mem hp)
    rw [h1, h2]
    rfl
  · intro pi p hp u hu
    obtain ⟨h1, -, -, -⟩ := hpl p (List.getElem?_mem hp)
    rw [h1] at hu
    cases hu
  · intro pi p hp
    obtain ⟨-, -, h3, -⟩ := hpl p (List.getElem?_mem hp)
    rw [h3, ownedCount_zero howners pi]
    rfl
  · intro pi p hp u hu
    obtain ⟨h1, -, -, -⟩ := hpl p (List.getElem?_mem hp)
    rw [h1] at hu
    cases hu
  · intro ti _ t hts'
    exact howners t (List.getElem?_mem hts')
  · intro t ht hown
    exact absurd (howners t ht) hown
  · intro pi p hp k hk
    obtain ⟨-, -, -, h4⟩ := hpl p (List.getElem?_mem hp)
    rw [h4] at hk
    cases hk

/-- C6: after initialization, every Player's stored `unitCount` equals
the length of its `units` list, every Part in that list points back to
that player, and the stored `centerCount` equals the number of
Territories whose owner is that player.  (The only operations in the
source that touch these fields are the constructor and
`Game::initialize`; `movePhase`/`retreatPhase`/`buildPhase` are
declared but never defined, so there is no further operation to
preserve.) -/
theorem counts_invariant (m : MapDesc) (r : RulesDesc) (g g' : GameState)
    (hc : gameConstruct m r = .ok g) (hi : initializeGame g = .ok g') :
    ∀ (pi : Nat) (p : Player), g'.allPlayers[pi]? = some p →
      p.unitCount = (p.units.length : Int) ∧
      (∀ u ∈ p.units, ∃ pr, partAt g'.allTerritories u = some pr ∧ pr.unit = some pi) ∧
      p.centerCount = (ownedCount g'.allTerritories pi : Int) := by
  unfold initializeGame at hi
  obtain ⟨r0, hr0, h2⟩ := except_bind_ok.mp hi
  obtain ⟨ts', ps'⟩ := r0
  simp only [Except.ok.injEq] at h2
  subst h2
  have hinv0 := initInv_initial hc (List.range g.allTerritories.length)
  have hfin := initFold_inv hr0 hinv0 (List.nodup_range _)
  intro pi p hp
  exact ⟨hfin.unitCount_eq pi p hp, hfin.units_point pi p hp, hfin.centerCount_eq pi p hp⟩

/-- C6 witness: on the two-territory example map (RUS holds units on
UKR_L and MOS_L and owns the single center MOS) the counts match. -/
theorem counts_invariant_witness :
    ∃ g g', gameConstruct mapTwo rulesEx = .ok g ∧ initializeGame g = .ok g' ∧
      ∀ (pi : Nat) (p : Player), g'.allPlayers[pi]? = some p →
        p.unitCount = (p.units.length : Int) ∧
        (∀ u ∈ p.units, ∃ pr, partAt g'.allTerritories u = some pr ∧ pr.unit = some pi) ∧
        p.centerCount = (ownedCount g'.allTerritories pi : Int) :=
  ⟨_, _, rfl, rfl, counts_invariant mapTwo rulesEx _ _ rfl rfl⟩

/-- C7: after initialization every Part has at most one occupying unit:
a Part cannot be listed in two different Players' unit lists, and the
Part's `unit` pointer names the unique occupying player.  (As for C6,
no later operation exists in the source.) -/
theorem occupancy_unique (m : MapDesc) (r : RulesDesc) (g g' : GameState)
    (hc : gameConstruct m r = .ok g) (hi : initializeGame g = .ok g') :
    (∀ (pi pj : Nat) (p q : Player) (u : Nat × Nat),
      g'.allPlayers[pi]? = some p → g'.allPlayers[pj]? = some q →
      u ∈ p.units → u ∈ q.units → pi = pj) ∧
    (∀ (pi : Nat) (p : Player) (u : Nat × Nat), g'.allPlayers[pi]? = some p →
      u ∈ p.units → ∃ pr, partAt g'.allTerritories u = some pr ∧ pr.unit = some pi) := by
  have hmain := counts_invariant m r g g' hc hi
  constructor
  · intro pi pj p q u hp hq hup huq
    obtain ⟨-, hpointp, -⟩ := hmain pi p hp
    obtain ⟨-, hpointq, -⟩ := hmain pj q hq
    obtain ⟨pr1, hpr1, hu1⟩ := hpointp u hup
    obtain ⟨pr2, hpr2, hu2⟩ := hpointq u huq
    rw [hpr1] at hpr2
    obtain rfl := Option.some_inj.mp hpr2
    rw [hu1] at hu2
    exact Option.some_inj.mp hu2
  · intro pi p u hp hu
    exact (hmain pi p hp).2.1 u hu

/-- C7 witness: uniqueness instantiated on the two-territory example. -/
theorem occupancy_unique_witness :
    ∃ g g', gameConstruct mapTwo rulesEx = .ok g ∧ initializeGame g = .ok g' ∧
      (∀ (pi pj : Nat) (p q : Player) (u : Nat × Nat),
        g'.allPlayers[pi]? = some p → g'.allPlayers[pj]? = some q →
        u ∈ p.units → u ∈ q.units → pi = pj) :=
  ⟨_, _, rfl, rfl, (occupancy_unique mapTwo rulesEx _ _ rfl rfl).1⟩

/-! ## Tracing the unit placement of one territory through initialize -/

theorem findIdxL_map_eq {α β : Type} {g : α → β} (q : β → Bool) :
    ∀ {l l' : List α}, l.map g = l'.map g →
      findIdxL (fun a => q (g a)) l = findIdxL (fun a => q (g a)) l' := by
  intro l
  induction l with
  | nil =>
    intro l' h
    cases l' with
    | nil => rfl
    | cons y ys => simp at h
  | cons x xs ih =>
    intro l' h
    cases l' with
    | nil => simp at h
    | cons y ys =>
      simp only [List.map_cons, List.cons.injEq] at h
      simp only [findIdxL, h.1, ih h.2]

theorem initStep_eq_place {m : MapDesc} {ts : List Territory} {ps : List Player}
    {ti : Nat} {t : Territory} {nm : String} {td : TerritoryDesc} {pn ipn : String}
    {pi pj : Nat}
    (hts : ts[ti]? = some t)
    (hfind : m.find? (fun e => e.1 = t.name) = some (nm, td))
    (hip : td.initPlayer = some pn) (hipt : td.initPart = some ipn)
    (hfpl : findIdxL (fun p => p.name = pn) ps = some pi)
    (hfpt : findIdxL (fun pr => pr.name = ipn) t.parts = some pj) :
    initStep m ts ps ti =
      if t.center ≠ 0 then
        .ok (updateNth (updateNth ts ti (setPartUnit pj pi)) ti (setOwner pi),
             updateNth (updateNth ps pi (pushUnit ti pj)) pi (pushCenter ti))
      else
        .ok (updateNth ts ti (setPartUnit pj pi), updateNth ps pi (pushUnit ti pj)) := by
  unfold initStep
  rw [hts]
  show (match m.find? (fun e => e.1 = t.name) with
    | none => Except.ok (ts, ps)
    | some e =>
      match e.2.initPlayer with
      | none => Except.ok (ts, ps)
      | some pn => do
        let ipn ← getString e.2.initPart
        match findIdxL (fun p : Player => p.name = pn) ps with
        | none => Except.ok (ts, ps)
        | some pi =>
          let tsps :=
            match findIdxL (fun pr : Part => pr.name = ipn) t.parts with
            | none => (ts, ps)
            | some pj =>
              (updateNth ts ti (setPartUnit pj pi),
               updateNth ps pi (pushUnit ti pj))
          if t.center ≠ 0 then
            .ok (updateNth tsps.1 ti (setOwner pi),
                 updateNth tsps.2 pi (pushCenter ti))
          else .ok tsps) = _
  rw [hfind]
  show (match td.initPlayer with
    | none => Except.ok (ts, ps)
    | some pn => do
      let ipn ← getString td.initPart
      match findIdxL (fun p : Player => p.name = pn) ps with
      | none => Except.ok (ts, ps)
      | some pi =>
        let tsps :=
          match findIdxL (fun pr : Part => pr.name = ipn) t.parts with
          | none => (ts, ps)
          | some pj =>
            (updateNth ts ti (setPartUnit pj pi),
             updateNth ps pi (pushUnit ti pj))
        if t.center ≠ 0 then
          .ok (updateNth tsps.1 ti (setOwner pi),
               updateNth tsps.2 pi (pushCenter ti))
        else .ok tsps) = _
  rw [hip]
  show (do
      let ipn0 ← getString td.initPart
      match findIdxL (fun p : Player => p.name = pn) ps with
      | none => Except.ok (ts, ps)
      | some pi =>
        let tsps :=
          match findIdxL (fun pr : Part => pr.name = ipn0) t.parts with
          | none => (ts, ps)
          | some pj =>
            (updateNth ts ti (setPartUnit pj pi),
             updateNth ps pi (pushUnit ti pj))
        if t.center ≠ 0 then
          .ok (updateNth tsps.1 ti (setOwner pi),
               updateNth tsps.2 pi (pushCenter ti))
        else .ok tsps) = _
  rw [hipt]
  show (match findIdxL (fun p : Player => p.name = pn) ps with
    | none => Except.ok (ts, ps)
    | some pi =>
      let tsps :=
        match findIdxL (fun pr : Part => pr.name = ipn) t.parts with
        | none => (ts, ps)
        | some pj =>
          (updateNth ts ti (setPartUnit pj pi),
           updateNth ps pi (pushUnit ti pj))
      if t.center ≠ 0 then
        .ok (updateNth tsps.1 ti (setOwner pi),
             updateNth tsps.2 pi (pushCenter ti))
      else .ok tsps) = _
  rw [hfpl]
  show (let tsps :=
      match findIdxL (fun pr : Part => pr.name = ipn) t.parts with
      | none => (ts, ps)
      | some pj =>
        (updateNth ts ti (setPartUnit pj pi),
         updateNth ps pi (pushUnit ti pj))
    if t.center ≠ 0 then
      Except.ok (updateNth tsps.1 ti (setOwner pi),
           updateNth tsps.2 pi (pushCenter ti))
    else Except.ok tsps) = _
  rw [hfpt]

theorem initFold_places_unit {m : MapDesc} :
    ∀ {is : List Nat} {ts : List Territory} {ps : List Player}
      {ts' : List Territory} {ps' : List Player} {i : Nat} {t : Territory}
      {nm : String} {td : TerritoryDesc} {pn ipn : String} {pi pj : Nat},
      initFold m is ts ps = .ok (ts', ps') → i ∈ is → is.Nodup →
      ts[i]? = some t →
      m.find? (fun e => e.1 = t.name) = some (nm, td) →
      td.initPlayer = some pn → td.initPart = some ipn →
      findIdxL (fun p => p.name = pn) ps = some pi →
      findIdxL (fun pr => pr.name = ipn) t.parts = some pj →
      ∃ t' pr, ts'[i]? = some t' ∧ t'.parts[pj]? = some pr ∧ pr.unit = some pi ∧
        (t.center = 0 → t'.owner = t.owner) := by
  intro is
  induction is with
  | nil =>
    intro ts ps ts' ps' i t nm td pn ipn pi pj _ hmem
    cases hmem
  | cons ti rest ih =>
    intro ts ps ts' ps' i t nm td pn ipn pi pj h hmem hnd hts hfind hip hipt hfpl hfpt
    simp only [initFold] at h
    obtain ⟨r0, hr0, h2⟩ := except_bind_ok.mp h
    obtain ⟨ts0, ps0⟩ := r0
    simp only [List.nodup_cons] at hnd
    by_cases hei : ti = i
    · subst hei
      have hstep := initStep_eq_place hts hfind hip hipt hfpl hfpt
      rw [hstep] at hr0
      obtain ⟨pr0, hpr0, -⟩ := findIdxL_some hfpt
      by_cases hc : t.center = 0
      · rw [if_neg (by simp [hc])] at hr0
        simp only [Except.ok.injEq, Prod.mk.injEq] at hr0
        obtain ⟨rfl, rfl⟩ := hr0
        have hfi := initFold_getElem_not_mem h2 hnd.1
        rw [updateNth_getElem?, if_pos rfl, hts, Option.map_some'] at hfi
        refine ⟨setPartUnit pj pi t, { pr0 with unit := some pi }, hfi, ?_, rfl,
          fun _ => rfl⟩
        show (updateNth t.parts pj _)[pj]? = _
        rw [updateNth_getElem?, if_pos rfl, hpr0, Option.map_some']
      · rw [if_pos hc] at hr0
        simp only [Except.ok.injEq, Prod.mk.injEq] at hr0
        obtain ⟨rfl, rfl⟩ := hr0
        have hfi := initFold_getElem_not_mem h2 hnd.1
        rw [updateNth_getElem?, if_pos rfl, updateNth_getElem?, if_pos rfl, hts,
          Option.map_some', Option.map_some'] at hfi
        refine ⟨setOwner pi (setPartUnit pj pi t), { pr0 with unit := some pi },
          hfi, ?_, rfl, fun h0 => absurd h0 hc⟩
        show (updateNth t.parts pj _)[pj]? = _
        rw [updateNth_getElem?, if_pos rfl, hpr0, Option.map_some']
    · have hmem' : i ∈ rest := by
        rcases List.mem_cons.mp hmem with rfl | hm
        · exact absurd rfl hei
        · exact hm
      have hts0 : ts0[i]? = some t := by
        rw [initStep_getElem_ne hr0 (fun h' => hei h'.symm)]
        exact hts
      have hskel := initStep_skel hr0
      have hfpl0 : findIdxL (fun p => p.name = pn) ps0 = some pi := by
        have hcongr := findIdxL_map_eq (fun s => decide (s = pn)) hskel.2
        exact hcongr.trans hfpl
      exact ih h2 hmem' hnd.2 hts0 hfind hip hipt hfpl0 hfpt

/-- C10: after initialization a Territory has a non-null owner only if
it is a supply center (src line 281 guards ownership, centerCount and
allowBuild behind `if (territory->center)`), every build-eligible
territory is a center, and for a territory with non-null `initPlayer`,
string `initPart` and center flag 0 the named player still receives
the initial unit (if `initPart` names one of its parts, src lines
274-279) while the owner stays null. -/
theorem owner_only_if_center (m : MapDesc) (r : RulesDesc) (g g' : GameState)
    (hc : gameConstruct m r = .ok g) (hi : initializeGame g = .ok g') :
    (∀ (k : Nat) (t : Territory), g'.allTerritories[k]? = some t →
      t.owner ≠ none → t.center ≠ 0) ∧
    (∀ (pi : Nat) (p : Player), g'.allPlayers[pi]? = some p →
      ∀ k ∈ p.allowBuild, ∃ t, g'.allTerritories[k]? = some t ∧ t.center ≠ 0) ∧
    ((m.map Prod.fst).Nodup →
      ∀ (i : Nat) (nm : String) (td : TerritoryDesc) (pn ipn : String),
        m[i]? = some (nm, td) → td.initPlayer = some pn → td.initPart = some ipn →
        ∃ t', g'.allTerritories[i]? = some t' ∧
          (td.center = 0 → t'.owner = none) ∧
          ∀ pj, findIdxL (fun pr => pr.name = ipn) t'.parts = some pj →
            ∃ pr pi, t'.parts[pj]? = some pr ∧
              findIdxL (fun p => p.name = pn) g'.allPlayers = some pi ∧
              pr.unit = some pi) := by
  have hgame := gameConstruct_ok hc
  obtain ⟨ts, hts, rfl⟩ := hgame
  unfold initializeGame at hi
  obtain ⟨r0, hr0, h2⟩ := except_bind_ok.mp hi
  obtain ⟨ts', ps'⟩ := r0
  simp only [Except.ok.injEq] at h2
  subst h2
  have hinv0 := initInv_initial hc (List.range ts.length)
  have hfin := initFold_inv hr0 hinv0 (List.nodup_range _)
  obtain ⟨hlen, halign⟩ := buildTerritories_align hts
  have hskel := initFold_skel hr0
  refine ⟨?_, ?_, ?_⟩
  · intro k t htk hown
    exact hfin.owner_center t (List.getElem?_mem htk) hown
  · intro pi p hp k hk
    exact hfin.allowBuild_center pi p hp k hk
  · intro hnd i nm td pn ipn hmi hip hipt
    obtain ⟨t0, hts0, ht0nm, ht0c, ht0own, -⟩ := halign i nm td hmi
    have hsk : (ts'[i]?).map terrSkel = some (terrSkel t0) := by
      rw [← List.getElem?_map, hskel.1, List.getElem?_map, hts0, Option.map_some']
    cases ht' : ts'[i]? with
    | none => rw [ht', Option.map_none'] at hsk; cases hsk
    | some t' =>
      rw [ht', Option.map_some'] at hsk
      have hsk' : terrSkel t' = terrSkel t0 := Option.some_inj.mp hsk
      have ht'c : t'.center = t0.center := congrArg (fun x => x.2.1) hsk'
      have ht'parts : t'.parts.map Part.name = t0.parts.map Part.name :=
        congrArg (fun x => x.2.2) hsk'
      refine ⟨t', rfl, ?_, ?_⟩
      · intro hc0
        cases hto : t'.owner with
        | none => rfl
        | some q =>
          exfalso
          have := hfin.owner_center t' (List.getElem?_mem ht') (by rw [hto]; simp)
          rw [ht'c, ht0c] at this
          exact this hc0
      · intro pj hpj
        have hfpt0 : findIdxL (fun pr => pr.name = ipn) t0.parts = some pj := by
          have hcongr := findIdxL_map_eq (fun s => decide (s = ipn)) ht'parts
          exact hcongr.symm.trans hpj
        have hfind : m.find? (fun e => e.1 = t0.name) = some (nm, td) := by
          rw [ht0nm]
          exact find?_key_of_nodup hnd hmi
        have hpnmem : pn ∈ (rosterAux m []).map Player.name := by
          rw [rosterAux_names m [] pn]
          exact ⟨List.mem_map.mpr ⟨(nm, td), List.getElem?_mem hmi, hip⟩,
            List.not_mem_nil pn⟩
        obtain ⟨p, hpmem, hpname⟩ := List.mem_map.mp hpnmem
        obtain ⟨pi, hpi⟩ := findIdxL_of_exists
          (p := fun q : Player => decide (q.name = pn))
          ⟨p, List.mem_cons_of_mem publicPlayer hpmem, decide_eq_true hpname⟩
        have hirange : i ∈ List.range ts.length := by
          rw [List.mem_range]
          exact (List.getElem?_eq_some.mp hts0).1
        obtain ⟨t'', pr, ht'', hpr, hunit, -⟩ :=
          initFold_places_unit hr0 hirange (List.nodup_range _) hts0 hfind hip hipt
            hpi hfpt0
        rw [ht'] at ht''
        obtain rfl := Option.some_inj.mp ht''
        refine ⟨pr, pi, hpr, ?_, hunit⟩
        have hcongr := findIdxL_map_eq (fun s => decide (s = pn)) hskel.2
        exact hcongr.trans hpi

/-- C10 witness: on the two-territory map the non-center territory UKR
gets a RUS unit on UKR_L but stays unowned. -/
theorem owner_only_if_center_witness :
    ∃ g g', gameConstruct mapTwo rulesEx = .ok g ∧ initializeGame g = .ok g' ∧
      ∃ t', g'.allTerritories[0]? = some t' ∧ t'.owner = none ∧
        ∀ pj, findIdxL (fun pr => pr.name = "UKR_L") t'.parts = some pj →
          ∃ pr pi, t'.parts[pj]? = some pr ∧
            findIdxL (fun p => p.name = "RUS") g'.allPlayers = some pi ∧
            pr.unit = some pi := by
  refine ⟨_, _, rfl, rfl, ?_⟩
  obtain ⟨-, -, h3⟩ := owner_only_if_center mapTwo rulesEx _ _ rfl rfl
  obtain ⟨t', ht', hown, hpj⟩ := h3 (by decide) 0 "UKR" _ "RUS" "UKR_L" rfl rfl rfl
  exact ⟨t', ht', hown rfl, hpj⟩
